import Mathlib

/-!
Verification development for the styx repository (a CLI tool that is intended
to codegen SQL migrations by diffing a current database state against a desired
state declared in a schema file).

The first part shallowly embeds the orchestration code of src/cmd/generate.go:
outcomes of the external effects (directory reads, docker calls, database
calls) are passed in explicitly as environment values, and the control flow of
the Go functions is translated branch by branch.

The second part models the Schema Diff & Migration Codegen Engine from the
specification (the engine is not present in the source tree; every definition
belonging to it is marked as modelled from the spec).
-/

namespace Styx

/-! ## Go-side orchestration model (src/cmd/generate.go) -/

/-- A non-nil Go `error` value, abstracted to its message. -/
structure GoError where
  msg : String
deriving DecidableEq, Repr

/-- Model of `fmt.Errorf("...: %w", err)`: wraps an error with a message. -/
def wrapErr (pre : String) (e : GoError) : GoError :=
  ⟨pre ++ ": " ++ e.msg⟩

/-- Outcome of `os.ReadDir(migrationsDir)` (generate.go line 111): either a
directory listing, a not-exist error, or some other error. -/
inductive ReadDirResult
  | ok (files : List String)
  | errNotExist
  | errOther (e : GoError)
deriving DecidableEq, Repr

/-- Whether the `err` returned by `os.ReadDir` is non-nil. -/
def ReadDirResult.errNonNil : ReadDirResult → Bool
  | .ok _ => false
  | _ => true

/-- Model of `os.IsNotExist(err)` on the error returned by `os.ReadDir`. -/
def ReadDirResult.isNotExistErr : ReadDirResult → Bool
  | .errNotExist => true
  | _ => false

/-- The `files` slice returned by `os.ReadDir`; nil (empty) when it failed. -/
def ReadDirResult.files : ReadDirResult → List String
  | .ok fs => fs
  | _ => []

/-- Outcome of `m.Up()` from golang-migrate: success, `migrate.ErrNoChange`,
or a genuine error. -/
inductive UpResult
  | ok
  | noChange
  | err (e : GoError)
deriving DecidableEq, Repr

/-- Outcomes of the golang-migrate calls made by `applyExistingMigrations`. -/
structure MigrateEnv where
  newResult : Option GoError
  upResult : UpResult
deriving DecidableEq, Repr

/-- Result of `applyExistingMigrations`: the returned error value, and whether
the function attempted to apply migrations (i.e. reached the
`migrate.New` / `m.Up` calls). -/
structure AEMOutcome where
  err : Option GoError
  attempted : Bool
deriving DecidableEq, Repr

/-- Translation of `applyExistingMigrations` (generate.go lines 110-134).
The Go code is:

  files, err := os.ReadDir(migrationsDir)
  if err != nil && !os.IsNotExist(err) { return nil }
  if len(files) == 0 { return nil }
  m, err := migrate.New(...); if err != nil { return wrapped }
  if err := m.Up(); err != nil && err != migrate.ErrNoChange { return wrapped }
  return nil
-/
def applyExistingMigrations (rd : ReadDirResult) (env : MigrateEnv) : AEMOutcome :=
  if rd.errNonNil && !rd.isNotExistErr then
    { err := none, attempted := false }
  else if rd.files.length = 0 then
    { err := none, attempted := false }
  else
    match env.newResult with
    | some e => { err := some (wrapErr "failed to initialize `golang-migrate`" e), attempted := true }
    | none =>
      match env.upResult with
      | .err e => { err := some (wrapErr "failed to apply migrations to sample container" e), attempted := true }
      | _ => { err := none, attempted := true }

/-- Outcomes of the external effects performed by `generateMigrations`
(generate.go lines 137-234), in the order the code performs them. -/
structure GMEnv where
  mkdirAll : Option GoError
  newClient : Option GoError
  imagePull : Option GoError
  containerCreate : Except GoError String
  containerStart : Option GoError
  containerStop : Option GoError
  containerRemove : Option GoError
  readDir : ReadDirResult
  migrateEnv : MigrateEnv
  dumpSchema : Except GoError String
deriving Repr

/-- Observable outcome of a run of `generateMigrations`: the returned error,
whether the container was successfully created, whether the deferred
stop-and-remove teardown (lines 201-217) was executed, whether a
`log.Fatal` fired inside that teardown (which terminates the process with
exit code 1), and the migration files the run wrote to the output
directory. -/
structure GMOutcome where
  err : Option GoError
  containerCreated : Bool
  teardownRan : Bool
  fatalDuringTeardown : Bool
  migrationFilesWritten : List String
deriving DecidableEq, Repr

/-- Whether the deferred teardown hits `log.Fatal`: it does when
`ContainerStop` fails, or when `ContainerStop` succeeds but
`ContainerRemove` fails (lines 205-216). -/
def teardownFatal (env : GMEnv) : Bool :=
  env.containerStop.isSome || env.containerRemove.isSome

/-- Translation of `generateMigrations` (generate.go lines 137-234), branch by
branch.  The key control-flow facts mirrored here: the deferred teardown
closure is registered only after `ContainerStart` has succeeded (line 201
follows line 197), so an error return from `ContainerStart` happens with no
teardown registered; every later return runs the teardown; and no step of the
function writes any migration file. -/
def generateMigrations (env : GMEnv) : GMOutcome :=
  match env.mkdirAll with
  | some e =>
    { err := some (wrapErr "failed to create directory" e),
      containerCreated := false, teardownRan := false,
      fatalDuringTeardown := false, migrationFilesWritten := [] }
  | none =>
  match env.newClient with
  | some e =>
    { err := some (wrapErr "failed to create Docker client" e),
      containerCreated := false, teardownRan := false,
      fatalDuringTeardown := false, migrationFilesWritten := [] }
  | none =>
  match env.imagePull with
  | some e =>
    { err := some (wrapErr "failed to pull PostgreSQL docker image" e),
      containerCreated := false, teardownRan := false,
      fatalDuringTeardown := false, migrationFilesWritten := [] }
  | none =>
  match env.containerCreate with
  | .error e =>
    { err := some (wrapErr "failed to create PostgreSQL container" e),
      containerCreated := false, teardownRan := false,
      fatalDuringTeardown := false, migrationFilesWritten := [] }
  | .ok _ =>
  match env.containerStart with
  | some e =>
    -- the defer at line 201 has not been registered yet: no teardown
    { err := some (wrapErr "failed to start PostgreSQL container" e),
      containerCreated := true, teardownRan := false,
      fatalDuringTeardown := false, migrationFilesWritten := [] }
  | none =>
    -- from here on the deferred teardown runs on every return path
    match (applyExistingMigrations env.readDir env.migrateEnv).err with
    | some e =>
      { err := some (wrapErr "failed to apply existing migrations" e),
        containerCreated := true, teardownRan := true,
        fatalDuringTeardown := teardownFatal env, migrationFilesWritten := [] }
    | none =>
      match env.dumpSchema with
      | .error e =>
        { err := some (wrapErr "failed to dump current database schema" e),
          containerCreated := true, teardownRan := true,
          fatalDuringTeardown := teardownFatal env, migrationFilesWritten := [] }
      | .ok _ =>
        { err := none,
          containerCreated := true, teardownRan := true,
          fatalDuringTeardown := teardownFatal env, migrationFilesWritten := [] }

/-- Process exit code of the `generate` subcommand (generate.go lines 30-40):
`log.Fatal` inside the deferred teardown exits the process with code 1 before
`generateMigrations` can return; otherwise the cobra `Run` closure calls
`os.Exit(1)` when `generateMigrations` returned a non-nil error, and returns
normally (process exit code 0) when it returned nil. -/
def generateExitCode (env : GMEnv) : Nat :=
  let r := generateMigrations env
  if r.fatalDuringTeardown then 1
  else match r.err with
    | some _ => 1
    | none => 0

/-! ## Model of `dumpDatabaseSchema`'s row rendering (generate.go lines 66-101) -/

/-- One row of the `information_schema.columns` query, as scanned at lines
68-76.  `sql.NullString` fields are modelled as `Option String`
(invalid maps to `none`). -/
structure CatalogRow where
  tableName : String
  columnName : String
  dataType : String
  isNullable : String
  columnDefault : Option String
  charMaxLen : Option String
  numPrecision : Option String
  numScale : Option String
  udtName : Option String
  isIdentity : Option String
  identityGen : Option String
deriving DecidableEq, Repr

/-- The type portion of a rendered column definition: `data_type` followed by
the parenthesized argument logic of lines 80-88 (`character_maximum_length`
first; otherwise `numeric_precision`, with `numeric_scale` when present). -/
def typeText (r : CatalogRow) : String :=
  let base := r.dataType
  match r.charMaxLen with
  | some l => base ++ "(" ++ l ++ ")"
  | none =>
    match r.numPrecision with
    | some p =>
      match r.numScale with
      | some s => base ++ "(" ++ p ++ "," ++ s ++ ")"
      | none => base ++ "(" ++ p ++ ")"
    | none => base

/-- Translation of the column-definition construction of lines 79-98 (the
variable `def` in the Go code), one line per catalog row. -/
def renderRow (r : CatalogRow) : String :=
  r.tableName ++ "." ++ r.columnName ++ " " ++ typeText r ++
    (match r.columnDefault with
     | some d => " DEFAULT " ++ d
     | none => "") ++
    (if r.isNullable == "NO" then " NOT NULL" else "") ++
    (if r.isIdentity == some "YES" then
       " GENERATED " ++ ((r.identityGen).getD "") ++ " AS IDENTITY"
     else "")

/-- The schema text accumulated by the row loop of lines 67-101: one
`WriteString(def + "\n")` per row. -/
def dumpSchemaLines (rows : List CatalogRow) : List String :=
  rows.map (fun r => renderRow r ++ "\n")

/-- Modelled from the spec: the DDL Parser (spec section 4.1) does not exist in
the source tree; per section 4.2 the canonical type value it produces for
`VARCHAR(n)` is the normalization target that the introspection side is
required to also produce.  We model that canonical value as the canonical
type text `VARCHAR(n)`. -/
def parserCanonicalVarchar (n : Nat) : String :=
  "VARCHAR(" ++ toString n ++ ")"

/-! ## Schema Model (spec section 3)

Modelled from the spec: the Schema Diff & Migration Codegen Engine (spec
sections 3, 4.3, 4.4) does not exist in the source tree ("the engine described
here does not exist yet in source", spec section 2); every definition in the
rest of this file is built from the specification text. -/

/-- Modelled from the spec: a column's logical type — a kind plus optional
precision, scale and length (spec section 3, Column). -/
structure SqlType where
  kind : String
  len : Option Nat
  precision : Option Nat
  scale : Option Nat
deriving DecidableEq, Repr

/-- Modelled from the spec: identity/generation mode of a column
(`none | always | by-default`). -/
inductive IdentityMode
  | noIdentity
  | always
  | byDefault
deriving DecidableEq, Repr

/-- Modelled from the spec: a column — name, logical type, nullability flag,
optional default expression (opaque text), identity mode. -/
structure Column where
  name : String
  ctype : SqlType
  nullable : Bool
  defaultExpr : Option String
  identity : IdentityMode
deriving DecidableEq, Repr

/-- Modelled from the spec: constraint kinds. -/
inductive ConstraintKind
  | primaryKey
  | foreignKey
  | uniqueKey
  | checkCon
deriving DecidableEq, Repr

/-- Modelled from the spec: a constraint — kind, target column list, and for
foreign keys the referenced table/column list plus referential actions. -/
structure Constraint where
  kind : ConstraintKind
  columns : List String
  refTable : Option String
  refColumns : List String
  onDelete : Option String
  onUpdate : Option String
  checkExpr : Option String
deriving DecidableEq, Repr

/-- Modelled from the spec: an index — name, column list, uniqueness flag. -/
structure Index where
  name : String
  columns : List String
  unique : Bool
deriving DecidableEq, Repr

/-- Modelled from the spec: the structural identity of an index: indexes are
diffed by normalized structural equality — same columns, same uniqueness —
irrespective of name (spec section 3, Index). -/
def idxKey (i : Index) : List String × Bool :=
  (i.columns, i.unique)

/-- Two indexes are structurally equivalent when their structural keys agree. -/
def idxEquiv (i j : Index) : Bool :=
  idxKey i == idxKey j

/-- Modelled from the spec: a table — name, ordered column sequence, set of
constraints, set of indexes (sets represented as lists). -/
structure Table where
  name : String
  columns : List Column
  constraints : List Constraint
  indexes : List Index
deriving DecidableEq, Repr

/-- Modelled from the spec: a schema is a mapping from table name to table,
represented as a list of tables; the spec invariant is that no two tables
share a name. -/
abbrev Schema := List Table

/-- Look a table up by name (first match). -/
def findTable (S : Schema) (n : String) : Option Table :=
  S.find? (fun t => t.name == n)

/-- Whether a schema contains a table of the given name. -/
def hasTable (S : Schema) (n : String) : Bool :=
  S.any (fun t => t.name == n)

/-- Spec invariant on a table: column names are unique within the table. -/
def Table.wf (t : Table) : Bool :=
  (t.columns.map (fun c => c.name)).Nodup

/-- Spec invariants on a schema: table names are unique, and each table is
well formed. -/
def Schema.wf (S : Schema) : Bool :=
  (S.map (fun t => t.name)).Nodup && S.all Table.wf

/-! ## SchemaDelta (spec section 3) -/

/-- Modelled from the spec: the typed change operations of a `SchemaDelta`.
Each op carries enough data to render both its forward and its reverse
statement without re-consulting the original models: drop ops carry the
dropped entity, alter ops carry both the old and the new attribute value. -/
inductive ChangeOp
  | createTable (t : Table)
  | dropTable (t : Table)
  | addColumn (table : String) (c : Column)
  | dropColumn (table : String) (c : Column)
  | alterColumnType (table col : String) (oldTy newTy : SqlType)
  | alterColumnNullability (table col : String) (oldN newN : Bool)
  | alterColumnDefault (table col : String) (oldD newD : Option String)
  | addConstraint (table : String) (c : Constraint)
  | dropConstraint (table : String) (c : Constraint)
  | addIndex (table : String) (i : Index)
  | dropIndex (table : String) (i : Index)
deriving DecidableEq, Repr

/-- Modelled from the spec: a `SchemaDelta` is an ordered sequence of change
operations. -/
abbrev SchemaDelta := List ChangeOp

/-! ## Canonical renderings (used as the lexical tie-break keys of spec
section 4.3 step 4, and by the DDL Synthesizer of section 4.4) -/

/-- Canonical rendering of a logical type. -/
def renderType (ty : SqlType) : String :=
  ty.kind ++
    match ty.len with
    | some n => "(" ++ toString n ++ ")"
    | none =>
      match ty.precision, ty.scale with
      | some p, some s => "(" ++ toString p ++ "," ++ toString s ++ ")"
      | some p, none => "(" ++ toString p ++ ")"
      | _, _ => ""

/-- Canonical rendering of a column definition. -/
def renderColumnDef (c : Column) : String :=
  c.name ++ " " ++ renderType c.ctype ++
    (match c.defaultExpr with
     | some d => " DEFAULT " ++ d
     | none => "") ++
    (if c.nullable then "" else " NOT NULL") ++
    (match c.identity with
     | .noIdentity => ""
     | .always => " GENERATED ALWAYS AS IDENTITY"
     | .byDefault => " GENERATED BY DEFAULT AS IDENTITY")

/-- Canonical rendering of a constraint. -/
def renderConstraint (c : Constraint) : String :=
  match c.kind with
  | .primaryKey => "PRIMARY KEY (" ++ String.intercalate ", " c.columns ++ ")"
  | .uniqueKey => "UNIQUE (" ++ String.intercalate ", " c.columns ++ ")"
  | .checkCon => "CHECK (" ++ (c.checkExpr.getD "") ++ ")"
  | .foreignKey =>
    "FOREIGN KEY (" ++ String.intercalate ", " c.columns ++ ") REFERENCES " ++
      (c.refTable.getD "") ++ " (" ++ String.intercalate ", " c.refColumns ++ ")" ++
      (match c.onDelete with
       | some a => " ON DELETE " ++ a
       | none => "") ++
      (match c.onUpdate with
       | some a => " ON UPDATE " ++ a
       | none => "")

/-! ## Diff Engine (spec section 4.3) -/

/-- Sort a list by a string key (the canonical lexical orderings demanded by
spec section 4.3 step 4). -/
def sortByKey (key : α → String) (l : List α) : List α :=
  l.insertionSort (fun a b => key a ≤ key b)

/-- Tables sorted by name. -/
def sortTables (S : Schema) : Schema :=
  sortByKey (fun t => t.name) S

/-- Modelled from the spec: the pairs of same-named tables present in both
schemas (spec section 4.3 step 1, "tables in both"), in canonical table-name
order, each current-side table paired with its desired-side counterpart. -/
def sharedPairs (A B : Schema) : List (Table × Table) :=
  (sortTables B).filterMap (fun tB => (findTable A tB.name).map (fun tA => (tA, tB)))

/-- Tables present in the current schema but not the desired one. -/
def droppedTables (A B : Schema) : List Table :=
  sortTables (A.filter (fun t => !(hasTable B t.name)))

/-- Tables present in the desired schema but not the current one. -/
def createdTables (A B : Schema) : List Table :=
  sortTables (B.filter (fun t => !(hasTable A t.name)))

/-- Constraints to drop for a shared table: structural-equality set
difference, current minus desired (spec section 4.3 step 3). -/
def conDropOps (p : Table × Table) : List ChangeOp :=
  (sortByKey renderConstraint
      (p.1.constraints.filter (fun c => !(p.2.constraints.contains c)))).map
    (fun c => .dropConstraint p.2.name c)

/-- Constraints to add for a shared table: desired minus current. -/
def conAddOps (p : Table × Table) : List ChangeOp :=
  (sortByKey renderConstraint
      (p.2.constraints.filter (fun c => !(p.1.constraints.contains c)))).map
    (fun c => .addConstraint p.2.name c)

/-- Indexes to drop for a shared table: structural set difference by the
name-blind structural equivalence (spec section 3, Index). -/
def idxDropOps (p : Table × Table) : List ChangeOp :=
  (sortByKey (fun i => i.name)
      (p.1.indexes.filter (fun i => !(p.2.indexes.any (fun j => idxEquiv i j))))).map
    (fun i => .dropIndex p.2.name i)

/-- Indexes to add for a shared table. -/
def idxAddOps (p : Table × Table) : List ChangeOp :=
  (sortByKey (fun i => i.name)
      (p.2.indexes.filter (fun i => !(p.1.indexes.any (fun j => idxEquiv i j))))).map
    (fun i => .addIndex p.2.name i)

/-- Columns to drop for a shared table: set difference by name
(spec section 4.3 step 2). -/
def colDropOps (p : Table × Table) : List ChangeOp :=
  (sortByKey (fun c => c.name)
      (p.1.columns.filter (fun c => !(p.2.columns.any (fun d => d.name == c.name))))).map
    (fun c => .dropColumn p.2.name c)

/-- Columns to add for a shared table. -/
def colAddOps (p : Table × Table) : List ChangeOp :=
  (sortByKey (fun c => c.name)
      (p.2.columns.filter (fun c => !(p.1.columns.any (fun d => d.name == c.name))))).map
    (fun c => .addColumn p.2.name c)

/-- Type changes for the columns present in both sides of a shared table:
each differing attribute becomes its own op (spec section 4.3 step 2). -/
def typeAlterOps (p : Table × Table) : List ChangeOp :=
  (sortByKey (fun c => c.name) p.2.columns).filterMap (fun cb =>
    match p.1.columns.find? (fun d => d.name == cb.name) with
    | some ca =>
      if ca.ctype ≠ cb.ctype then
        some (.alterColumnType p.2.name cb.name ca.ctype cb.ctype)
      else none
    | none => none)

/-- Nullability changes for shared columns. -/
def nullAlterOps (p : Table × Table) : List ChangeOp :=
  (sortByKey (fun c => c.name) p.2.columns).filterMap (fun cb =>
    match p.1.columns.find? (fun d => d.name == cb.name) with
    | some ca =>
      if ca.nullable ≠ cb.nullable then
        some (.alterColumnNullability p.2.name cb.name ca.nullable cb.nullable)
      else none
    | none => none)

/-- Default-expression changes for shared columns. -/
def defAlterOps (p : Table × Table) : List ChangeOp :=
  (sortByKey (fun c => c.name) p.2.columns).filterMap (fun cb =>
    match p.1.columns.find? (fun d => d.name == cb.name) with
    | some ca =>
      if ca.defaultExpr ≠ cb.defaultExpr then
        some (.alterColumnDefault p.2.name cb.name ca.defaultExpr cb.defaultExpr)
      else none
    | none => none)

/-- Modelled from the spec: `diff(current, desired) -> SchemaDelta`
(spec section 4.3).  Table-level set difference produces `CreateTable` and
`DropTable` ops; shared tables are recursed into for column, constraint and
index diffs; the per-table operation lists are merged into one global ordered
sequence honoring the precedence rules of step 4 (drops of dependents before
drops of their dependees, creations before additions that reference them,
`AddColumn` before `AddConstraint`, foreign-key `AddConstraint` after every
`CreateTable`/`AddColumn`), realised as precedence classes in the order below;
ties within a class are broken by canonical (table name, then operation kind,
then column/constraint name) lexical order, which the class-wise sorted
construction produces directly. -/
def diff (A B : Schema) : SchemaDelta :=
  (sharedPairs A B).flatMap conDropOps ++
  (sharedPairs A B).flatMap idxDropOps ++
  (sharedPairs A B).flatMap colDropOps ++
  (droppedTables A B).map .dropTable ++
  (createdTables A B).map .createTable ++
  (sharedPairs A B).flatMap colAddOps ++
  (sharedPairs A B).flatMap typeAlterOps ++
  (sharedPairs A B).flatMap nullAlterOps ++
  (sharedPairs A B).flatMap defAlterOps ++
  (sharedPairs A B).flatMap conAddOps ++
  (sharedPairs A B).flatMap idxAddOps

/-! ## DDL Synthesizer (spec section 4.4) -/

/-- Modelled from the spec: a DDL statement, as an abstract-syntax value; each
change op maps to exactly one statement. -/
inductive Statement
  | createTable (t : Table)
  | dropTable (name : String)
  | addColumn (table : String) (c : Column)
  | dropColumn (table col : String)
  | alterColumnType (table col : String) (ty : SqlType)
  | setNullability (table col : String) (nullable : Bool)
  | setDefault (table col : String) (d : Option String)
  | addConstraint (table : String) (c : Constraint)
  | dropConstraint (table : String) (c : Constraint)
  | createIndex (table : String) (i : Index)
  | dropIndex (table : String) (i : Index)
deriving DecidableEq, Repr

/-- The forward statement of a change op (spec section 4.4: forward statements
follow the delta's computed order exactly, one statement per op). -/
def fwdStatement : ChangeOp → Statement
  | .createTable t => .createTable t
  | .dropTable t => .dropTable t.name
  | .addColumn n c => .addColumn n c
  | .dropColumn n c => .dropColumn n c.name
  | .alterColumnType n cn _ newTy => .alterColumnType n cn newTy
  | .alterColumnNullability n cn _ newN => .setNullability n cn newN
  | .alterColumnDefault n cn _ newD => .setDefault n cn newD
  | .addConstraint n c => .addConstraint n c
  | .dropConstraint n c => .dropConstraint n c
  | .addIndex n i => .createIndex n i
  | .dropIndex n i => .dropIndex n i

/-- The reverse (semantic inverse) statement of a change op. -/
def revStatement : ChangeOp → Statement
  | .createTable t => .dropTable t.name
  | .dropTable t => .createTable t
  | .addColumn n c => .dropColumn n c.name
  | .dropColumn n c => .addColumn n c
  | .alterColumnType n cn oldTy _ => .alterColumnType n cn oldTy
  | .alterColumnNullability n cn oldN _ => .setNullability n cn oldN
  | .alterColumnDefault n cn oldD _ => .setDefault n cn oldD
  | .addConstraint n c => .dropConstraint n c
  | .dropConstraint n c => .addConstraint n c
  | .addIndex n i => .dropIndex n i
  | .dropIndex n i => .createIndex n i

/-- Modelled from the spec:
`synthesize(delta) -> (forward, reverse)` — forward statements follow the
delta order exactly; reverse statements are the forward list's semantic
inverses in reverse order (spec section 4.4). -/
def synthesize (d : SchemaDelta) : List Statement × List Statement :=
  (d.map fwdStatement, (d.map revStatement).reverse)

/-- Canonical rendering template of a statement (one template per op variant;
`CREATE TABLE` also renders its inline constraints in the same statement). -/
def Statement.render : Statement → String
  | .createTable t =>
    "CREATE TABLE " ++ t.name ++ " (" ++
      String.intercalate ", "
        (t.columns.map renderColumnDef ++ t.constraints.map renderConstraint) ++ ");"
  | .dropTable n => "DROP TABLE " ++ n ++ ";"
  | .addColumn n c => "ALTER TABLE " ++ n ++ " ADD COLUMN " ++ renderColumnDef c ++ ";"
  | .dropColumn n cn => "ALTER TABLE " ++ n ++ " DROP COLUMN " ++ cn ++ ";"
  | .alterColumnType n cn ty =>
    "ALTER TABLE " ++ n ++ " ALTER COLUMN " ++ cn ++ " TYPE " ++ renderType ty ++ ";"
  | .setNullability n cn nb =>
    "ALTER TABLE " ++ n ++ " ALTER COLUMN " ++ cn ++
      (if nb then " DROP NOT NULL;" else " SET NOT NULL;")
  | .setDefault n cn d =>
    "ALTER TABLE " ++ n ++ " ALTER COLUMN " ++ cn ++
      (match d with
       | some e => " SET DEFAULT " ++ e ++ ";"
       | none => " DROP DEFAULT;")
  | .addConstraint n c => "ALTER TABLE " ++ n ++ " ADD " ++ renderConstraint c ++ ";"
  | .dropConstraint n c => "ALTER TABLE " ++ n ++ " DROP " ++ renderConstraint c ++ ";"
  | .createIndex n i =>
    (if i.unique then "CREATE UNIQUE INDEX " else "CREATE INDEX ") ++ i.name ++
      " ON " ++ n ++ " (" ++ String.intercalate ", " i.columns ++ ");"
  | .dropIndex _ i => "DROP INDEX " ++ i.name ++ ";"

/-- Byte rendering of a statement list. -/
def renderScript (l : List Statement) : String :=
  String.intercalate "\n" (l.map Statement.render)

/-! ## Database-state semantics of statements

A database state is modelled by the same `Schema` type; each statement acts on
it structurally, the way the corresponding DDL statement acts on a live
database's catalog. -/

/-- Apply a function to every table of the given name. -/
def mapTable (S : Schema) (n : String) (f : Table → Table) : Schema :=
  S.map (fun t => if t.name == n then f t else t)

/-- The effect of one statement on a database state. -/
def applyStatement (S : Schema) : Statement → Schema
  | .createTable t => S ++ [t]
  | .dropTable n => S.filter (fun t => !(t.name == n))
  | .addColumn n c => mapTable S n (fun t => { t with columns := t.columns ++ [c] })
  | .dropColumn n cn =>
    mapTable S n (fun t => { t with columns := t.columns.filter (fun c => !(c.name == cn)) })
  | .alterColumnType n cn ty =>
    mapTable S n (fun t =>
      { t with columns := t.columns.map (fun c => if c.name == cn then { c with ctype := ty } else c) })
  | .setNullability n cn nb =>
    mapTable S n (fun t =>
      { t with columns := t.columns.map (fun c => if c.name == cn then { c with nullable := nb } else c) })
  | .setDefault n cn d =>
    mapTable S n (fun t =>
      { t with columns := t.columns.map (fun c => if c.name == cn then { c with defaultExpr := d } else c) })
  | .addConstraint n c => mapTable S n (fun t => { t with constraints := t.constraints ++ [c] })
  | .dropConstraint n c =>
    mapTable S n (fun t => { t with constraints := t.constraints.filter (fun d => !(d == c)) })
  | .createIndex n i => mapTable S n (fun t => { t with indexes := t.indexes ++ [i] })
  | .dropIndex n i =>
    mapTable S n (fun t => { t with indexes := t.indexes.filter (fun j => !(idxEquiv j i)) })

/-- Apply a statement list left to right. -/
def applyStatements (S : Schema) (l : List Statement) : Schema :=
  l.foldl applyStatement S

/-! ## Proof views of statement application

The following definitions are views of `applyStatement` used to reason about
runs of the synthesized scripts: the table a statement addresses, whether it
acts inside a single table, its per-table and per-column actions, and the
closed forms of the forward and reverse effect on one shared table. -/

/-- The name of the table a statement addresses. -/
def Statement.tableName : Statement → String
  | .createTable t => t.name
  | .dropTable n => n
  | .addColumn n _ => n
  | .dropColumn n _ => n
  | .alterColumnType n _ _ => n
  | .setNullability n _ _ => n
  | .setDefault n _ _ => n
  | .addConstraint n _ => n
  | .dropConstraint n _ => n
  | .createIndex n _ => n
  | .dropIndex n _ => n

/-- Whether a statement acts inside one existing table (everything except
creating or dropping a whole table). -/
def Statement.isTableLocal : Statement → Bool
  | .createTable _ => false
  | .dropTable _ => false
  | _ => true

/-- The action of a table-local statement on one table (the function
`applyStatement` maps over the schema). -/
def localApply (st : Statement) (t : Table) : Table :=
  match st with
  | .createTable _ => t
  | .dropTable _ => t
  | .addColumn n c => if t.name == n then { t with columns := t.columns ++ [c] } else t
  | .dropColumn n cn =>
    if t.name == n then { t with columns := t.columns.filter (fun c => !(c.name == cn)) } else t
  | .alterColumnType n cn ty =>
    if t.name == n then
      { t with columns := t.columns.map (fun c => if c.name == cn then { c with ctype := ty } else c) }
    else t
  | .setNullability n cn nb =>
    if t.name == n then
      { t with columns := t.columns.map (fun c => if c.name == cn then { c with nullable := nb } else c) }
    else t
  | .setDefault n cn d =>
    if t.name == n then
      { t with columns := t.columns.map (fun c => if c.name == cn then { c with defaultExpr := d } else c) }
    else t
  | .addConstraint n c => if t.name == n then { t with constraints := t.constraints ++ [c] } else t
  | .dropConstraint n c =>
    if t.name == n then { t with constraints := t.constraints.filter (fun d => !(d == c)) } else t
  | .createIndex n i => if t.name == n then { t with indexes := t.indexes ++ [i] } else t
  | .dropIndex n i =>
    if t.name == n then { t with indexes := t.indexes.filter (fun j => !(idxEquiv j i)) } else t

/-- Fold of the per-table actions of a statement list over one table. -/
def applyLocal (l : List Statement) (t : Table) : Table :=
  l.foldl (fun u st => localApply st u) t

/-- The column a column-update statement addresses (empty for others). -/
def Statement.colName : Statement → String
  | .alterColumnType _ cn _ => cn
  | .setNullability _ cn _ => cn
  | .setDefault _ cn _ => cn
  | _ => ""

/-- Whether a statement updates a single column attribute. -/
def Statement.isColUpdate : Statement → Bool
  | .alterColumnType _ _ _ => true
  | .setNullability _ _ _ => true
  | .setDefault _ _ _ => true
  | _ => false

/-- The action of a column-update statement on one column. -/
def colUpd (st : Statement) (c : Column) : Column :=
  match st with
  | .alterColumnType _ cn ty => if c.name == cn then { c with ctype := ty } else c
  | .setNullability _ cn nb => if c.name == cn then { c with nullable := nb } else c
  | .setDefault _ cn d => if c.name == cn then { c with defaultExpr := d } else c
  | _ => c

/-- Fold of column updates over one column. -/
def colUpdFold (l : List Statement) (c : Column) : Column :=
  l.foldl (fun d st => colUpd st d) c

/-- Overwrite the three diffed attributes of a column from its same-named
desired-side counterpart, when one exists. -/
def updFrom (tB : Table) (c : Column) : Column :=
  match tB.columns.find? (fun d => d.name == c.name) with
  | some cb => { c with ctype := cb.ctype, nullable := cb.nullable, defaultExpr := cb.defaultExpr }
  | none => c

/-- Closed form of the forward migration's effect on a shared table `p.1`
(current side) migrated towards `p.2` (desired side): columns not in the
desired side are gone, surviving columns carry the desired attributes, new
columns are appended in canonical order, and constraints/indexes are the kept
ones followed by the added ones. -/
def fwdTableResult (p : Table × Table) : Table :=
  { name := p.1.name,
    columns :=
      (p.1.columns.filter (fun c => p.2.columns.any (fun d => d.name == c.name))).map (updFrom p.2) ++
        sortByKey (fun c => c.name)
          (p.2.columns.filter (fun c => !(p.1.columns.any (fun d => d.name == c.name)))),
    constraints :=
      p.1.constraints.filter (fun c => p.2.constraints.contains c) ++
        sortByKey renderConstraint
          (p.2.constraints.filter (fun c => !(p.1.constraints.contains c))),
    indexes :=
      p.1.indexes.filter (fun i => p.2.indexes.any (fun j => idxEquiv i j)) ++
        sortByKey (fun i => i.name)
          (p.2.indexes.filter (fun i => !(p.1.indexes.any (fun j => idxEquiv i j)))) }

/-- Closed form of the reverse migration's effect on a shared table: the
original current-side content, re-partitioned into the entries that survived
the forward migration followed by the re-created ones. -/
def revTableResult (p : Table × Table) : Table :=
  { name := p.1.name,
    columns :=
      p.1.columns.filter (fun c => p.2.columns.any (fun d => d.name == c.name)) ++
        (sortByKey (fun c => c.name)
          (p.1.columns.filter (fun c => !(p.2.columns.any (fun d => d.name == c.name))))).reverse,
    constraints :=
      p.1.constraints.filter (fun c => p.2.constraints.contains c) ++
        (sortByKey renderConstraint
          (p.1.constraints.filter (fun c => !(p.2.constraints.contains c)))).reverse,
    indexes :=
      p.1.indexes.filter (fun i => p.2.indexes.any (fun j => idxEquiv i j)) ++
        (sortByKey (fun i => i.name)
          (p.1.indexes.filter (fun i => !(p.2.indexes.any (fun j => idxEquiv i j))))).reverse }

/-- The table-local statements of the forward script that precede the
whole-table drop/create phases: dropped constraints, indexes and columns of
shared tables. -/
def fwdPreStmts (A B : Schema) : List Statement :=
  ((sharedPairs A B).flatMap conDropOps).map fwdStatement ++
    ((sharedPairs A B).flatMap idxDropOps).map fwdStatement ++
    ((sharedPairs A B).flatMap colDropOps).map fwdStatement

/-- The table-local statements of the forward script that follow the
whole-table drop/create phases: added columns, the three attribute
alterations, added constraints and added indexes of shared tables. -/
def fwdPostStmts (A B : Schema) : List Statement :=
  ((sharedPairs A B).flatMap colAddOps).map fwdStatement ++
    ((sharedPairs A B).flatMap typeAlterOps).map fwdStatement ++
    ((sharedPairs A B).flatMap nullAlterOps).map fwdStatement ++
    ((sharedPairs A B).flatMap defAlterOps).map fwdStatement ++
    ((sharedPairs A B).flatMap conAddOps).map fwdStatement ++
    ((sharedPairs A B).flatMap idxAddOps).map fwdStatement

/-- The table-local statements of the reverse script that precede its
whole-table phases: the undo of every shared-table addition and alteration,
in reverse order. -/
def revPreStmts (A B : Schema) : List Statement :=
  (((sharedPairs A B).flatMap idxAddOps).map revStatement).reverse ++
    (((sharedPairs A B).flatMap conAddOps).map revStatement).reverse ++
    (((sharedPairs A B).flatMap defAlterOps).map revStatement).reverse ++
    (((sharedPairs A B).flatMap nullAlterOps).map revStatement).reverse ++
    (((sharedPairs A B).flatMap typeAlterOps).map revStatement).reverse ++
    (((sharedPairs A B).flatMap colAddOps).map revStatement).reverse

/-- The table-local statements of the reverse script that follow its
whole-table phases: the re-creation of every dropped column, index and
constraint of shared tables. -/
def revPostStmts (A B : Schema) : List Statement :=
  (((sharedPairs A B).flatMap colDropOps).map revStatement).reverse ++
    (((sharedPairs A B).flatMap idxDropOps).map revStatement).reverse ++
    (((sharedPairs A B).flatMap conDropOps).map revStatement).reverse

/-- Closed form of the whole forward migration: every current-side table that
also exists in the desired schema is migrated to its closed-form forward
result, the rest are dropped, and the created tables are appended in canonical
order. -/
def fwdApplied (A B : Schema) : Schema :=
  (A.filter (fun u => hasTable B u.name)).map
    (fun u => fwdTableResult (u, (findTable B u.name).getD u)) ++ createdTables A B

/-- Closed form of the whole reverse migration applied after the forward one:
every shared table is restored to its closed-form reverse result, the created
tables are dropped again, and the originally dropped tables are re-created in
reverse canonical order. -/
def revApplied (A B : Schema) : Schema :=
  (A.filter (fun u => hasTable B u.name)).map
    (fun u => revTableResult (u, (findTable B u.name).getD u)) ++ (droppedTables A B).reverse

/-! ## Concrete inputs used by witnesses and counterexamples -/

/-- An environment in which every external step succeeds. -/
def okEnv : GMEnv :=
  { mkdirAll := none, newClient := none, imagePull := none,
    containerCreate := .ok "styx-postgres-id", containerStart := none,
    containerStop := none, containerRemove := none,
    readDir := .ok [], migrateEnv := { newResult := none, upResult := .ok },
    dumpSchema := .ok "" }

/-- An environment in which the container is created successfully but
`ContainerStart` fails (for example because host port 5433 is already
bound). -/
def startFailEnv : GMEnv :=
  { okEnv with containerStart := some ⟨"port is already allocated"⟩ }

/-- A catalog row reporting a `character varying` column of maximum length
255. -/
def varcharRow : CatalogRow :=
  { tableName := "users", columnName := "email",
    dataType := "character varying", isNullable := "YES",
    columnDefault := none, charMaxLen := some "255",
    numPrecision := none, numScale := none,
    udtName := some "varchar", isIdentity := some "NO", identityGen := none }

/-- An integer column type used by the concrete example schemas. -/
def intType : SqlType := { kind := "INTEGER", len := none, precision := none, scale := none }

/-- A nullable integer column with no default and no identity. -/
def intCol (n : String) : Column :=
  { name := n, ctype := intType, nullable := true, defaultExpr := none, identity := .noIdentity }

/-- A one-table schema whose table `t` carries a single index named
`idx_one`. -/
def exIdxA : Schema :=
  [{ name := "t", columns := [intCol "a"], constraints := [],
     indexes := [{ name := "idx_one", columns := ["a"], unique := false }] }]

/-- The same schema except for the index's name: under the spec's structural
index identity (columns plus uniqueness) the two schemas have an empty diff,
yet they are distinct states. -/
def exIdxB : Schema :=
  [{ name := "t", columns := [intCol "a"], constraints := [],
     indexes := [{ name := "idx_two", columns := ["a"], unique := false }] }]

/-- A concrete current-state schema with one table. -/
def exCurrent : Schema :=
  [{ name := "users", columns := [intCol "id"],
     constraints := [{ kind := .primaryKey, columns := ["id"], refTable := none,
                       refColumns := [], onDelete := none, onUpdate := none, checkExpr := none }],
     indexes := [] }]

/-- A concrete desired-state schema: `users` gains a non-nullable column and
an index, and a second table referencing it appears. -/
def exDesired : Schema :=
  [{ name := "users",
     columns := [intCol "id",
                 { name := "email", ctype := { kind := "VARCHAR", len := some 255, precision := none, scale := none },
                   nullable := false, defaultExpr := none, identity := .noIdentity }],
     constraints := [{ kind := .primaryKey, columns := ["id"], refTable := none,
                       refColumns := [], onDelete := none, onUpdate := none, checkExpr := none }],
     indexes := [{ name := "users_email_idx", columns := ["email"], unique := true }] },
   { name := "posts",
     columns := [intCol "pid", intCol "author"],
     constraints := [{ kind := .foreignKey, columns := ["author"], refTable := some "users",
                       refColumns := ["id"], onDelete := some "CASCADE", onUpdate := none, checkExpr := none }],
     indexes := [] }]

/-- A two-table schema listed in one order. -/
def exTwoTables : Schema :=
  [{ name := "alpha", columns := [intCol "x"], constraints := [], indexes := [] },
   { name := "beta", columns := [intCol "y"], constraints := [], indexes := [] }]

/-- The same two tables listed in the opposite order (the same mapping from
table name to table). -/
def exTwoTablesSwapped : Schema :=
  [{ name := "beta", columns := [intCol "y"], constraints := [], indexes := [] },
   { name := "alpha", columns := [intCol "x"], constraints := [], indexes := [] }]

/-! # Theorems -/

/-! ## General list helpers -/

theorem any_congr_of_perm {α : Type} {l₁ l₂ : List α} (h : l₁.Perm l₂) (f : α → Bool) :
    l₁.any f = l₂.any f := by
  rw [Bool.eq_iff_iff]
  simp only [List.any_eq_true]
  exact ⟨fun ⟨x, hx, hf⟩ => ⟨x, h.mem_iff.mp hx, hf⟩,
         fun ⟨x, hx, hf⟩ => ⟨x, h.mem_iff.mpr hx, hf⟩⟩

theorem mem_sortByKey {α : Type} (key : α → String) (l : List α) (x : α) :
    x ∈ sortByKey key l ↔ x ∈ l :=
  List.mem_insertionSort _

theorem perm_sortByKey {α : Type} (key : α → String) (l : List α) :
    (sortByKey key l).Perm l :=
  List.perm_insertionSort _ _

/-- In a list whose keys are pairwise distinct, `find?` by the key of a member
returns exactly that member. -/
theorem find?_key_unique {α : Type} (f : α → String) {l : List α} {x : α}
    (nd : (l.map f).Nodup) (hx : x ∈ l) :
    l.find? (fun y => f y == f x) = some x := by
  induction l with
  | nil => cases hx
  | cons a tl ih =>
    have nd' : f a ∉ tl.map f ∧ (tl.map f).Nodup := by
      rw [List.map_cons, List.nodup_cons] at nd
      exact nd
    rcases List.mem_cons.mp hx with rfl | hmem
    · simp [List.find?_cons]
    · have hne : f a ≠ f x := by
        intro he
        exact nd'.1 (he ▸ List.mem_map_of_mem f hmem)
      simp only [List.find?_cons]
      rw [show (f a == f x) = false from beq_eq_false_iff_ne.mpr hne]
      exact ih nd'.2 hmem

/-- Unfolding of `Schema.wf` into its two conjuncts. -/
theorem Schema.wf_iff {S : Schema} :
    Schema.wf S = true ↔ (S.map (fun t => t.name)).Nodup ∧ ∀ t ∈ S, Table.wf t = true := by
  simp [Schema.wf, List.all_eq_true]

/-- The members of `sharedPairs A B`: each is a pair of same-named tables with
the first component found in `A` and the second a member of `B`. -/
theorem sharedPairs_mem {A B : Schema} {p : Table × Table} (hp : p ∈ sharedPairs A B) :
    p.2 ∈ B ∧ findTable A p.2.name = some p.1 := by
  unfold sharedPairs sortTables at hp
  rcases List.mem_filterMap.mp hp with ⟨tB, htB, hmap⟩
  rcases Option.map_eq_some'.mp hmap with ⟨tA, hfind, hpair⟩
  cases hpair
  exact ⟨(mem_sortByKey _ _ _).mp htB, hfind⟩

/-- In a well-formed schema, the table found under a member's own name is that
member. -/
theorem findTable_self {S : Schema} {t : Table}
    (nd : (S.map (fun u => u.name)).Nodup) (ht : t ∈ S) :
    findTable S t.name = some t := by
  have h := find?_key_unique (fun u : Table => u.name) nd ht
  simpa [findTable] using h

/-- On a self-pair of a well-formed table, every per-table diff generator is
empty. -/
theorem selfPair_ops_nil (t : Table) (hwf : Table.wf t = true) :
    conDropOps (t, t) = [] ∧ conAddOps (t, t) = [] ∧
    idxDropOps (t, t) = [] ∧ idxAddOps (t, t) = [] ∧
    colDropOps (t, t) = [] ∧ colAddOps (t, t) = [] ∧
    typeAlterOps (t, t) = [] ∧ nullAlterOps (t, t) = [] ∧ defAlterOps (t, t) = [] := by
  have hconfil : t.constraints.filter (fun c => !(t.constraints.contains c)) = [] := by
    apply List.filter_eq_nil_iff.mpr
    intro c hc
    simp [hc]
  have hidxfil : t.indexes.filter (fun i => !(t.indexes.any (fun j => idxEquiv i j))) = [] := by
    apply List.filter_eq_nil_iff.mpr
    intro i hi
    simp only [Bool.not_eq_true', Bool.not_eq_false]
    exact List.any_eq_true.mpr ⟨i, hi, by simp [idxEquiv]⟩
  have hcolfil : t.columns.filter (fun c => !(t.columns.any (fun d => d.name == c.name))) = [] := by
    apply List.filter_eq_nil_iff.mpr
    intro c hc
    simp only [Bool.not_eq_true', Bool.not_eq_false]
    exact List.any_eq_true.mpr ⟨c, hc, by simp⟩
  have hfind : ∀ cb ∈ sortByKey (fun c => c.name) t.columns,
      t.columns.find? (fun d => d.name == cb.name) = some cb := by
    intro cb hcb
    exact find?_key_unique (fun c => c.name) (by simpa [Table.wf] using hwf)
      ((mem_sortByKey _ _ _).mp hcb)
  refine ⟨?_, ?_, ?_, ?_, ?_, ?_, ?_, ?_, ?_⟩
  · show (sortByKey renderConstraint
        (t.constraints.filter (fun c => !(t.constraints.contains c)))).map
        (fun c => ChangeOp.dropConstraint t.name c) = []
    rw [hconfil]
    rfl
  · show (sortByKey renderConstraint
        (t.constraints.filter (fun c => !(t.constraints.contains c)))).map
        (fun c => ChangeOp.addConstraint t.name c) = []
    rw [hconfil]
    rfl
  · show (sortByKey (fun i => i.name)
        (t.indexes.filter (fun i => !(t.indexes.any (fun j => idxEquiv i j))))).map
        (fun i => ChangeOp.dropIndex t.name i) = []
    rw [hidxfil]
    rfl
  · show (sortByKey (fun i => i.name)
        (t.indexes.filter (fun i => !(t.indexes.any (fun j => idxEquiv i j))))).map
        (fun i => ChangeOp.addIndex t.name i) = []
    rw [hidxfil]
    rfl
  · show (sortByKey (fun c => c.name)
        (t.columns.filter (fun c => !(t.columns.any (fun d => d.name == c.name))))).map
        (fun c => ChangeOp.dropColumn t.name c) = []
    rw [hcolfil]
    rfl
  · show (sortByKey (fun c => c.name)
        (t.columns.filter (fun c => !(t.columns.any (fun d => d.name == c.name))))).map
        (fun c => ChangeOp.addColumn t.name c) = []
    rw [hcolfil]
    rfl
  · exact List.filterMap_eq_nil_iff.mpr (fun cb hcb => by rw [hfind cb hcb]; simp)
  · exact List.filterMap_eq_nil_iff.mpr (fun cb hcb => by rw [hfind cb hcb]; simp)
  · exact List.filterMap_eq_nil_iff.mpr (fun cb hcb => by rw [hfind cb hcb]; simp)

/-- C7: diff idempotence — for every valid schema S (unique table names,
unique column names per table), `diff S S` is the empty delta. -/
theorem c7_diff_idempotent :
    ∀ S : Schema, Schema.wf S = true → diff S S = [] := by
  intro S hwf
  obtain ⟨ndNames, hAll⟩ := Schema.wf_iff.mp hwf
  have hpair : ∀ p ∈ sharedPairs S S, p.1 = p.2 ∧ p.2 ∈ S := by
    intro p hp
    obtain ⟨hmem, hfind⟩ := sharedPairs_mem hp
    rw [findTable_self ndNames hmem] at hfind
    exact ⟨(Option.some.inj hfind).symm, hmem⟩
  have hdropped : droppedTables S S = [] := by
    have : S.filter (fun t => !(hasTable S t.name)) = [] := by
      apply List.filter_eq_nil_iff.mpr
      intro t ht
      simp only [Bool.not_eq_true', Bool.not_eq_false, hasTable]
      exact List.any_eq_true.mpr ⟨t, ht, by simp⟩
    simp [droppedTables, this, sortTables, sortByKey]
  have hcreated : createdTables S S = [] := by
    have : S.filter (fun t => !(hasTable S t.name)) = [] := by
      apply List.filter_eq_nil_iff.mpr
      intro t ht
      simp only [Bool.not_eq_true', Bool.not_eq_false, hasTable]
      exact List.any_eq_true.mpr ⟨t, ht, by simp⟩
    simp [createdTables, this, sortTables, sortByKey]
  have hgen : ∀ (g : Table × Table → List ChangeOp),
      (∀ t, Table.wf t = true → g (t, t) = []) →
      (sharedPairs S S).flatMap g = [] := by
    intro g hg
    apply List.flatMap_eq_nil_iff.mpr
    intro p hp
    obtain ⟨heq, hmem⟩ := hpair p hp
    rcases p with ⟨a, b⟩
    simp only at heq hmem
    cases heq
    exact hg a (hAll a hmem)
  unfold diff
  rw [hdropped, hcreated]
  rw [hgen _ (fun t h => (selfPair_ops_nil t h).1),
      hgen _ (fun t h => (selfPair_ops_nil t h).2.2.1),
      hgen _ (fun t h => (selfPair_ops_nil t h).2.2.2.2.1),
      hgen _ (fun t h => (selfPair_ops_nil t h).2.2.2.2.2.1),
      hgen _ (fun t h => (selfPair_ops_nil t h).2.2.2.2.2.2.1),
      hgen _ (fun t h => (selfPair_ops_nil t h).2.2.2.2.2.2.2.1),
      hgen _ (fun t h => (selfPair_ops_nil t h).2.2.2.2.2.2.2.2),
      hgen _ (fun t h => (selfPair_ops_nil t h).2.1),
      hgen _ (fun t h => (selfPair_ops_nil t h).2.2.2.1)]
  rfl

/-- C7 witness: the concrete schema `exCurrent` is well formed and diffing it
against itself yields the empty delta. -/
theorem c7_diff_idempotent_witness :
    Schema.wf exCurrent = true ∧ diff exCurrent exCurrent = [] :=
  ⟨by decide, c7_diff_idempotent exCurrent (by decide)⟩

/-- Sorting by key is insensitive to the input order when the keys are
pairwise distinct: the canonical-order tie-break of spec section 4.3 step 4
makes the result a function of the underlying mapping. -/
theorem sortByKey_eq_of_perm {α : Type} (key : α → String) {l₁ l₂ : List α}
    (h : l₁.Perm l₂) (nd : (l₁.map key).Nodup) :
    sortByKey key l₁ = sortByKey key l₂ := by
  haveI hTot : IsTotal α (fun a b => key a ≤ key b) := ⟨fun a b => le_total (key a) (key b)⟩
  haveI hTrans : IsTrans α (fun a b => key a ≤ key b) := ⟨fun a b c hab hbc => le_trans hab hbc⟩
  haveI hAnti : IsAntisymm α (fun a b => key a < key b) :=
    ⟨fun a b hab hba => absurd (hab.trans hba) (lt_irrefl _)⟩
  have hperm : (sortByKey key l₁).Perm (sortByKey key l₂) :=
    ((perm_sortByKey key l₁).trans h).trans (perm_sortByKey key l₂).symm
  have hs₁ : List.Sorted (fun a b => key a ≤ key b) (sortByKey key l₁) :=
    List.sorted_insertionSort _ _
  have hs₂ : List.Sorted (fun a b => key a ≤ key b) (sortByKey key l₂) :=
    List.sorted_insertionSort _ _
  have hnd₁ : ((sortByKey key l₁).map key).Nodup :=
    (((perm_sortByKey key l₁).map key).nodup_iff).mpr nd
  have hnd₂ : ((sortByKey key l₂).map key).Nodup :=
    ((hperm.map key).nodup_iff).mp hnd₁
  have hstrict : ∀ (l : List α), List.Sorted (fun a b => key a ≤ key b) l →
      (l.map key).Nodup → List.Sorted (fun a b => key a < key b) l := by
    intro l hs hnd
    have hne : List.Pairwise (fun a b => key a ≠ key b) l :=
      List.pairwise_map.mp hnd
    exact (hs.and hne).imp (fun hab => lt_of_le_of_ne hab.1 hab.2)
  exact List.eq_of_perm_of_sorted hperm (hstrict _ hs₁ hnd₁) (hstrict _ hs₂ hnd₂)

/-- Looking a key up with `find?` is insensitive to the list order when the
keys are pairwise distinct. -/
theorem find?_eq_of_perm_keys {α : Type} (f : α → String) (n : String) {l₁ l₂ : List α}
    (h : l₁.Perm l₂) (nd : (l₁.map f).Nodup) :
    l₁.find? (fun y => f y == n) = l₂.find? (fun y => f y == n) := by
  cases h₁ : l₁.find? (fun y => f y == n) with
  | none =>
    have hall := List.find?_eq_none.mp h₁
    exact (List.find?_eq_none.mpr (fun x hx => hall x (h.mem_iff.mpr hx))).symm
  | some a =>
    have ha : a ∈ l₁ := List.mem_of_find?_eq_some h₁
    have hfa : f a = n := by
      have := List.find?_some h₁
      exact beq_iff_eq.mp this
    have nd₂ : (l₂.map f).Nodup := ((h.map f).nodup_iff).mp nd
    have := find?_key_unique f nd₂ (h.mem_iff.mp ha)
    rw [hfa] at this
    exact this.symm

/-- The tables of a well-formed schema have pairwise distinct names, and this
property transfers along permutations and filters. -/
theorem nodup_names_filter {S : Schema} (p : Table → Bool)
    (nd : (S.map (fun t => t.name)).Nodup) :
    ((S.filter p).map (fun t => t.name)).Nodup :=
  ((List.filter_sublist S).map (fun t => t.name)).nodup nd

/-- C8: determinism of diff and synthesize — the delta (including operation
order) and the rendered forward/reverse scripts are identical whenever the two
inputs denote the same table mappings; in particular repeated calls on
identical inputs produce byte-identical output, and the output does not depend
on the enumeration order of the schemas' tables. -/
theorem c8_diff_synthesize_deterministic :
    ∀ (A₁ A₂ B₁ B₂ : Schema),
      Schema.wf A₁ = true → Schema.wf B₁ = true →
      A₁.Perm A₂ → B₁.Perm B₂ →
      diff A₁ B₁ = diff A₂ B₂ ∧
      renderScript (synthesize (diff A₁ B₁)).1 = renderScript (synthesize (diff A₂ B₂)).1 ∧
      renderScript (synthesize (diff A₁ B₁)).2 = renderScript (synthesize (diff A₂ B₂)).2 := by
  intro A₁ A₂ B₁ B₂ hwfA hwfB hA hB
  obtain ⟨ndA, _⟩ := Schema.wf_iff.mp hwfA
  obtain ⟨ndB, _⟩ := Schema.wf_iff.mp hwfB
  have hfindA : ∀ n, findTable A₁ n = findTable A₂ n := by
    intro n
    exact find?_eq_of_perm_keys (fun t => t.name) n hA ndA
  have hhasA : ∀ n, hasTable A₁ n = hasTable A₂ n := by
    intro n
    exact any_congr_of_perm hA _
  have hhasB : ∀ n, hasTable B₁ n = hasTable B₂ n := by
    intro n
    exact any_congr_of_perm hB _
  have hsortB : sortTables B₁ = sortTables B₂ :=
    sortByKey_eq_of_perm _ hB ndB
  have hshared : sharedPairs A₁ B₁ = sharedPairs A₂ B₂ := by
    unfold sharedPairs sortTables
    unfold sortTables at hsortB
    rw [← hsortB]
    exact List.filterMap_congr (fun tB _ => by rw [hfindA tB.name])
  have hdropped : droppedTables A₁ B₁ = droppedTables A₂ B₂ := by
    unfold droppedTables
    have hfil : ∀ S : Schema, S.filter (fun t => !(hasTable B₁ t.name)) =
        S.filter (fun t => !(hasTable B₂ t.name)) := by
      intro S
      exact List.filter_congr (fun t _ => by rw [hhasB t.name])
    rw [hfil A₁]
    exact sortByKey_eq_of_perm _ (hA.filter _)
      (nodup_names_filter _ ndA)
  have hcreated : createdTables A₁ B₁ = createdTables A₂ B₂ := by
    unfold createdTables
    have hfil : ∀ S : Schema, S.filter (fun t => !(hasTable A₁ t.name)) =
        S.filter (fun t => !(hasTable A₂ t.name)) := by
      intro S
      exact List.filter_congr (fun t _ => by rw [hhasA t.name])
    rw [hfil B₁]
    exact sortByKey_eq_of_perm _ (hB.filter _)
      (nodup_names_filter _ ndB)
  have hd : diff A₁ B₁ = diff A₂ B₂ := by
    unfold diff
    rw [hshared, hdropped, hcreated]
  exact ⟨hd, by rw [hd], by rw [hd]⟩

/-- C8 witness: two enumerations of the same two-table mapping, diffed against
the same desired schema, yield identical deltas and identical rendered
scripts. -/
theorem c8_diff_synthesize_deterministic_witness :
    Schema.wf exTwoTables = true ∧ Schema.wf exDesired = true ∧
    diff exTwoTables exDesired = diff exTwoTablesSwapped exDesired ∧
    renderScript (synthesize (diff exTwoTables exDesired)).1 =
      renderScript (synthesize (diff exTwoTablesSwapped exDesired)).1 :=
  ⟨by decide, by decide,
   (c8_diff_synthesize_deterministic exTwoTables exTwoTablesSwapped exDesired exDesired
      (by decide) (by decide) (by decide) (List.Perm.refl _)).1,
   (c8_diff_synthesize_deterministic exTwoTables exTwoTablesSwapped exDesired exDesired
      (by decide) (by decide) (by decide) (List.Perm.refl _)).2.1⟩

/-! ## Fold lemmas about statement application -/

theorem beq_str_comm (a b : String) : (a == b) = (b == a) := by
  rw [Bool.eq_iff_iff, beq_iff_eq, beq_iff_eq]
  exact eq_comm

theorem localApply_name (st : Statement) (t : Table) : (localApply st t).name = t.name := by
  cases st <;> simp only [localApply] <;> split <;> rfl

theorem applyLocal_cons (st : Statement) (l : List Statement) (t : Table) :
    applyLocal (st :: l) t = applyLocal l (localApply st t) := rfl

theorem applyLocal_append (l₁ l₂ : List Statement) (t : Table) :
    applyLocal (l₁ ++ l₂) t = applyLocal l₂ (applyLocal l₁ t) :=
  List.foldl_append _ _ _ _

theorem applyLocal_name (l : List Statement) (t : Table) : (applyLocal l t).name = t.name := by
  induction l generalizing t with
  | nil => rfl
  | cons st l ih => rw [applyLocal_cons, ih, localApply_name]

theorem localApply_skip (st : Statement) (t : Table)
    (h : (t.name == st.tableName) = false) : localApply st t = t := by
  cases st <;> simp only [localApply, Statement.tableName] at h ⊢ <;> simp [h]

theorem applyStatement_local (S : Schema) (st : Statement) (h : st.isTableLocal = true) :
    applyStatement S st = S.map (localApply st) := by
  cases st <;> first
    | rfl
    | simp [Statement.isTableLocal] at h

theorem applyStatements_cons (S : Schema) (st : Statement) (l : List Statement) :
    applyStatements S (st :: l) = applyStatements (applyStatement S st) l := rfl

theorem applyStatements_append (S : Schema) (l₁ l₂ : List Statement) :
    applyStatements S (l₁ ++ l₂) = applyStatements (applyStatements S l₁) l₂ :=
  List.foldl_append _ _ _ _

theorem applyStatements_local (l : List Statement) (h : ∀ st ∈ l, st.isTableLocal = true) :
    ∀ S : Schema, applyStatements S l = S.map (applyLocal l) := by
  induction l with
  | nil =>
    intro S
    show S = S.map (fun t => t)
    rw [List.map_id']
  | cons st l ih =>
    intro S
    rw [applyStatements_cons, applyStatement_local S st (h st (List.mem_cons_self st l)),
      ih (fun u hu => h u (List.mem_cons_of_mem st hu)), List.map_map]
    rfl

theorem applyLocal_filter_tableName (l : List Statement) (t : Table) :
    applyLocal l t = applyLocal (l.filter (fun st => st.tableName == t.name)) t := by
  induction l generalizing t with
  | nil => rfl
  | cons st l ih =>
    cases h : (st.tableName == t.name) with
    | true =>
      have hf : List.filter (fun st => st.tableName == t.name) (st :: l) =
          st :: List.filter (fun st => st.tableName == t.name) l := by
        simp [List.filter_cons, h]
      rw [hf, applyLocal_cons, applyLocal_cons, ih (localApply st t)]
      simp only [localApply_name]
    | false =>
      have hf : List.filter (fun st => st.tableName == t.name) (st :: l) =
          List.filter (fun st => st.tableName == t.name) l := by
        simp [List.filter_cons, h]
      rw [hf, applyLocal_cons, localApply_skip st t (by rw [beq_str_comm]; exact h), ih t]

theorem applyLocal_skip_all (l : List Statement) (t : Table)
    (h : ∀ st ∈ l, st.tableName ≠ t.name) : applyLocal l t = t := by
  rw [applyLocal_filter_tableName]
  have : l.filter (fun st => st.tableName == t.name) = [] :=
    List.filter_eq_nil_iff.mpr (fun st hst => by simp [h st hst])
  rw [this]
  rfl

theorem applyStatements_dropTables (ts : List Table) :
    ∀ S : Schema, applyStatements S (ts.map (fun t => Statement.dropTable t.name)) =
      S.filter (fun u => !(ts.any (fun t => u.name == t.name))) := by
  induction ts with
  | nil => intro S; simp [applyStatements]
  | cons t ts ih =>
    intro S
    rw [List.map_cons, applyStatements_cons]
    show applyStatements (S.filter (fun u => !(u.name == t.name))) _ = _
    rw [ih, List.filter_filter]
    apply List.filter_congr
    intro u _
    simp only [List.any_cons, Bool.not_or, Bool.and_comm]

theorem applyStatements_createTables (ts : List Table) :
    ∀ S : Schema, applyStatements S (ts.map Statement.createTable) = S ++ ts := by
  induction ts with
  | nil => intro S; simp [applyStatements]
  | cons t ts ih =>
    intro S
    rw [List.map_cons, applyStatements_cons]
    show applyStatements (S ++ [t]) _ = _
    rw [ih, List.append_assoc]
    rfl

theorem colUpd_name (st : Statement) (c : Column) : (colUpd st c).name = c.name := by
  cases st <;> simp only [colUpd] <;> try split <;> rfl

theorem colUpdFold_cons (st : Statement) (l : List Statement) (c : Column) :
    colUpdFold (st :: l) c = colUpdFold l (colUpd st c) := rfl

theorem colUpdFold_append (l₁ l₂ : List Statement) (c : Column) :
    colUpdFold (l₁ ++ l₂) c = colUpdFold l₂ (colUpdFold l₁ c) :=
  List.foldl_append _ _ _ _

theorem colUpdFold_name (l : List Statement) (c : Column) : (colUpdFold l c).name = c.name := by
  induction l generalizing c with
  | nil => rfl
  | cons st l ih => rw [colUpdFold_cons, ih, colUpd_name]

theorem colUpd_skip (st : Statement) (c : Column)
    (h : (c.name == st.colName) = false) : colUpd st c = c := by
  cases st <;> simp only [colUpd, Statement.colName] at h ⊢ <;> simp [h]

theorem colUpdFold_filter (l : List Statement) (c : Column) :
    colUpdFold l c = colUpdFold (l.filter (fun st => st.colName == c.name)) c := by
  induction l generalizing c with
  | nil => rfl
  | cons st l ih =>
    cases h : (st.colName == c.name) with
    | true =>
      have hf : List.filter (fun st => st.colName == c.name) (st :: l) =
          st :: List.filter (fun st => st.colName == c.name) l := by
        simp [List.filter_cons, h]
      rw [hf, colUpdFold_cons, colUpdFold_cons, ih (colUpd st c)]
      simp only [colUpd_name]
    | false =>
      have hf : List.filter (fun st => st.colName == c.name) (st :: l) =
          List.filter (fun st => st.colName == c.name) l := by
        simp [List.filter_cons, h]
      rw [hf, colUpdFold_cons, colUpd_skip st c (by rw [beq_str_comm]; exact h), ih c]

theorem localApply_colUpdate (st : Statement) (t : Table) (h : st.isColUpdate = true)
    (hn : (t.name == st.tableName) = true) :
    localApply st t = { t with columns := t.columns.map (colUpd st) } := by
  cases st <;> simp only [Statement.isColUpdate, Bool.false_eq_true] at h <;>
    (simp only [localApply, Statement.tableName] at hn ⊢
     rw [if_pos hn]
     rfl)

theorem applyLocal_colUpdates (m : String) (l : List Statement)
    (h : ∀ st ∈ l, st.isColUpdate = true ∧ st.tableName = m) :
    ∀ t' : Table, t'.name = m →
      applyLocal l t' = { t' with columns := t'.columns.map (colUpdFold l) } := by
  induction l with
  | nil =>
    intro t' _
    show t' = _
    rw [show (colUpdFold []) = (fun c : Column => c) from rfl, List.map_id']
  | cons st l ih =>
    intro t' ht'
    obtain ⟨hcu, htn⟩ := h st (List.mem_cons_self st l)
    rw [applyLocal_cons,
      localApply_colUpdate st t' hcu (beq_iff_eq.mpr (ht'.trans htn.symm)),
      ih (fun u hu => h u (List.mem_cons_of_mem st hu))
        { t' with columns := t'.columns.map (colUpd st) } ht', List.map_map]
    rfl

theorem applyLocal_dropConstraints (cs : List Constraint) (n : String) :
    ∀ t : Table, (t.name == n) = true →
      applyLocal (cs.map (fun c => Statement.dropConstraint n c)) t =
        { t with constraints := t.constraints.filter (fun d => !(cs.any (fun c => d == c))) } := by
  induction cs with
  | nil =>
    intro t _
    show t = _
    simp
  | cons c cs ih =>
    intro t h
    rw [List.map_cons, applyLocal_cons]
    have hl : localApply (Statement.dropConstraint n c) t =
        { t with constraints := t.constraints.filter (fun d => !(d == c)) } := by
      simp only [localApply]
      rw [if_pos h]
    rw [hl, ih { t with constraints := t.constraints.filter (fun d => !(d == c)) } h,
      List.filter_filter]
    congr 1
    apply List.filter_congr
    intro d _
    simp only [List.any_cons, Bool.not_or, Bool.and_comm]

theorem applyLocal_dropIndexes (is : List Index) (n : String) :
    ∀ t : Table, (t.name == n) = true →
      applyLocal (is.map (fun i => Statement.dropIndex n i)) t =
        { t with indexes := t.indexes.filter (fun j => !(is.any (fun i => idxEquiv j i))) } := by
  induction is with
  | nil =>
    intro t _
    show t = _
    simp
  | cons i is ih =>
    intro t h
    rw [List.map_cons, applyLocal_cons]
    have hl : localApply (Statement.dropIndex n i) t =
        { t with indexes := t.indexes.filter (fun j => !(idxEquiv j i)) } := by
      simp only [localApply]
      rw [if_pos h]
    rw [hl, ih { t with indexes := t.indexes.filter (fun j => !(idxEquiv j i)) } h,
      List.filter_filter]
    congr 1
    apply List.filter_congr
    intro j _
    simp only [List.any_cons, Bool.not_or, Bool.and_comm]

theorem applyLocal_dropColumns (cs : List Column) (n : String) :
    ∀ t : Table, (t.name == n) = true →
      applyLocal (cs.map (fun c => Statement.dropColumn n c.name)) t =
        { t with columns := t.columns.filter (fun d => !(cs.any (fun c => d.name == c.name))) } := by
  induction cs with
  | nil =>
    intro t _
    show t = _
    simp
  | cons c cs ih =>
    intro t h
    rw [List.map_cons, applyLocal_cons]
    have hl : localApply (Statement.dropColumn n c.name) t =
        { t with columns := t.columns.filter (fun d => !(d.name == c.name)) } := by
      simp only [localApply]
      rw [if_pos h]
    rw [hl, ih { t with columns := t.columns.filter (fun d => !(d.name == c.name)) } h,
      List.filter_filter]
    congr 1
    apply List.filter_congr
    intro d _
    simp only [List.any_cons, Bool.not_or, Bool.and_comm]

theorem applyLocal_addColumns (cs : List Column) (n : String) :
    ∀ t : Table, (t.name == n) = true →
      applyLocal (cs.map (fun c => Statement.addColumn n c)) t =
        { t with columns := t.columns ++ cs } := by
  induction cs with
  | nil =>
    intro t _
    show t = _
    simp
  | cons c cs ih =>
    intro t h
    rw [List.map_cons, applyLocal_cons]
    have hl : localApply (Statement.addColumn n c) t =
        { t with columns := t.columns ++ [c] } := by
      simp only [localApply]
      rw [if_pos h]
    rw [hl, ih { t with columns := t.columns ++ [c] } h]
    simp

theorem applyLocal_addConstraints (cs : List Constraint) (n : String) :
    ∀ t : Table, (t.name == n) = true →
      applyLocal (cs.map (fun c => Statement.addConstraint n c)) t =
        { t with constraints := t.constraints ++ cs } := by
  induction cs with
  | nil =>
    intro t _
    show t = _
    simp
  | cons c cs ih =>
    intro t h
    rw [List.map_cons, applyLocal_cons]
    have hl : localApply (Statement.addConstraint n c) t =
        { t with constraints := t.constraints ++ [c] } := by
      simp only [localApply]
      rw [if_pos h]
    rw [hl, ih { t with constraints := t.constraints ++ [c] } h]
    simp

theorem applyLocal_createIndexes (is : List Index) (n : String) :
    ∀ t : Table, (t.name == n) = true →
      applyLocal (is.map (fun i => Statement.createIndex n i)) t =
        { t with indexes := t.indexes ++ is } := by
  induction is with
  | nil =>
    intro t _
    show t = _
    simp
  | cons i is ih =>
    intro t h
    rw [List.map_cons, applyLocal_cons]
    have hl : localApply (Statement.createIndex n i) t =
        { t with indexes := t.indexes ++ [i] } := by
      simp only [localApply]
      rw [if_pos h]
    rw [hl, ih { t with indexes := t.indexes ++ [i] } h]
    simp

/-! ## Collapse of keyed flatMaps and filterMaps under a key filter -/

/-- Filtering a keyed flat map down to a key that no generator produces
yields nothing. -/
theorem flatMap_filter_key_nomatch {α β : Type} (f : α → String) (key : β → String)
    (P : List α) (g : α → List β) (hg : ∀ p, ∀ b ∈ g p, key b = f p)
    (m : String) (hm : ∀ p ∈ P, f p ≠ m) :
    (P.flatMap g).filter (fun b => key b == m) = [] := by
  apply List.filter_eq_nil_iff.mpr
  intro b hb
  rcases List.mem_flatMap.mp hb with ⟨p, hp, hbp⟩
  simp [hg p b hbp, hm p hp]

/-- Filtering a keyed flat map down to the key of one generator collapses to
that generator's output, when the keys are pairwise distinct. -/
theorem flatMap_filter_key_collapse {α β : Type} (f : α → String) (key : β → String)
    {P : List α} (g : α → List β) (hg : ∀ p, ∀ b ∈ g p, key b = f p)
    (nd : (P.map f).Nodup) {q : α} (hq : q ∈ P) :
    (P.flatMap g).filter (fun b => key b == f q) = g q := by
  induction P with
  | nil => cases hq
  | cons p P ih =>
    have nd' : f p ∉ P.map f ∧ (P.map f).Nodup := by
      rw [List.map_cons, List.nodup_cons] at nd
      exact nd
    rw [List.flatMap_cons, List.filter_append]
    rcases List.mem_cons.mp hq with rfl | hmem
    · have h₁ : (g q).filter (fun b => key b == f q) = g q :=
        List.filter_eq_self.mpr (fun b hb => by simp [hg q b hb])
      have h₂ : (P.flatMap g).filter (fun b => key b == f q) = [] := by
        apply flatMap_filter_key_nomatch f key P g hg
        intro r hr he
        exact nd'.1 (he ▸ List.mem_map_of_mem f hr)
      rw [h₁, h₂, List.append_nil]
    · have hne : f p ≠ f q := by
        intro he
        exact nd'.1 (he ▸ List.mem_map_of_mem f hmem)
      have h₁ : (g p).filter (fun b => key b == f q) = [] :=
        List.filter_eq_nil_iff.mpr (fun b hb => by simp [hg p b hb, hne])
      rw [h₁, List.nil_append]
      exact ih nd'.2 hmem

/-- Filtering a keyed filter-map down to the key of one element collapses to
that element's output, when the keys are pairwise distinct. -/
theorem filterMap_filter_key_collapse {α β : Type} (f : α → Option β) (key : β → String)
    (g : α → String) {cols : List α} (hf : ∀ a b, f a = some b → key b = g a)
    (nd : (cols.map g).Nodup) {a₀ : α} (h₀ : a₀ ∈ cols) :
    (cols.filterMap f).filter (fun b => key b == g a₀) = (f a₀).toList := by
  induction cols with
  | nil => cases h₀
  | cons a rest ih =>
    have nd' : g a ∉ rest.map g ∧ (rest.map g).Nodup := by
      rw [List.map_cons, List.nodup_cons] at nd
      exact nd
    have hrest_ne : ∀ b ∈ rest.filterMap f, a₀ = a → (key b == g a₀) = false := by
      intro b hb he
      rcases List.mem_filterMap.mp hb with ⟨x, hx, hfx⟩
      have : key b = g x := hf x b hfx
      rw [this, he]
      apply beq_eq_false_iff_ne.mpr
      intro hgx
      exact nd'.1 (hgx ▸ List.mem_map_of_mem g hx)
    rw [List.filterMap_cons]
    rcases List.mem_cons.mp h₀ with rfl | hmem
    · cases hfa : f a₀ with
      | none =>
        simp only []
        rw [List.filter_eq_nil_iff.mpr (fun b hb => by simp [hrest_ne b hb rfl])]
        rfl
      | some b =>
        simp only []
        rw [List.filter_cons]
        have : (key b == g a₀) = true := by simp [hf a₀ b hfa]
        rw [if_pos (by simp [this])]
        rw [List.filter_eq_nil_iff.mpr (fun b hb => by simp [hrest_ne b hb rfl])]
        rfl
    · have hne : g a ≠ g a₀ := by
        intro he
        exact nd'.1 (he ▸ List.mem_map_of_mem g hmem)
      cases hfa : f a with
      | none =>
        simp only []
        exact ih nd'.2 hmem
      | some b =>
        simp only []
        rw [List.filter_cons]
        have : (key b == g a₀) = false := by
          rw [hf a b hfa]
          exact beq_eq_false_iff_ne.mpr hne
        rw [if_neg (by simp [this])]
        exact ih nd'.2 hmem

/-- Application of a statement list with the phase shape produced by
`synthesize` on `diff`: table-local statements, whole-table drops, whole-table
creations, table-local statements. -/
theorem applyStatements_phased (S : Schema) (l₁ l₂ : List Statement) (dts cts : List Table)
    (h₁ : ∀ st ∈ l₁, st.isTableLocal = true) (h₂ : ∀ st ∈ l₂, st.isTableLocal = true) :
    applyStatements S (l₁ ++ dts.map (fun t => Statement.dropTable t.name) ++
        cts.map Statement.createTable ++ l₂) =
      (((S.map (applyLocal l₁)).filter (fun u => !(dts.any (fun t => u.name == t.name)))) ++ cts).map
        (applyLocal l₂) := by
  rw [applyStatements_append, applyStatements_append, applyStatements_append,
    applyStatements_local l₁ h₁, applyStatements_dropTables, applyStatements_createTables,
    applyStatements_local l₂ h₂]

/-! ## Decomposition of the synthesized scripts into phases -/

theorem fwd_decomp (A B : Schema) :
    (synthesize (diff A B)).1 =
      fwdPreStmts A B ++ (droppedTables A B).map (fun t => Statement.dropTable t.name) ++
        (createdTables A B).map Statement.createTable ++ fwdPostStmts A B := by
  show (diff A B).map fwdStatement = _
  unfold diff fwdPreStmts fwdPostStmts
  simp only [List.map_append, List.map_map, List.append_assoc]
  rfl

theorem rev_decomp (A B : Schema) :
    (synthesize (diff A B)).2 =
      revPreStmts A B ++ (createdTables A B).reverse.map (fun t => Statement.dropTable t.name) ++
        (droppedTables A B).reverse.map Statement.createTable ++ revPostStmts A B := by
  show ((diff A B).map revStatement).reverse = _
  unfold diff revPreStmts revPostStmts
  simp only [List.map_append, List.reverse_append, List.map_map, List.append_assoc]
  simp only [← List.map_reverse]
  rfl

/-! ## Shapes of the statements produced by the shared-table generators -/

theorem mem_mapped_flatMap {F : ChangeOp → Statement} {G : Table × Table → List ChangeOp}
    {P : List (Table × Table)} {st : Statement} (hst : st ∈ (P.flatMap G).map F) :
    ∃ p ∈ P, ∃ op ∈ G p, st = F op := by
  rcases List.mem_map.mp hst with ⟨op, hop, rfl⟩
  rcases List.mem_flatMap.mp hop with ⟨p, hp, hop'⟩
  exact ⟨p, hp, op, hop', rfl⟩

theorem conDropOps_props (p : Table × Table) : ∀ op ∈ conDropOps p,
    (fwdStatement op).isTableLocal = true ∧ (fwdStatement op).tableName = p.2.name ∧
    (revStatement op).isTableLocal = true ∧ (revStatement op).tableName = p.2.name := by
  intro op hop
  rcases List.mem_map.mp hop with ⟨c, _, rfl⟩
  exact ⟨rfl, rfl, rfl, rfl⟩

theorem conAddOps_props (p : Table × Table) : ∀ op ∈ conAddOps p,
    (fwdStatement op).isTableLocal = true ∧ (fwdStatement op).tableName = p.2.name ∧
    (revStatement op).isTableLocal = true ∧ (revStatement op).tableName = p.2.name := by
  intro op hop
  rcases List.mem_map.mp hop with ⟨c, _, rfl⟩
  exact ⟨rfl, rfl, rfl, rfl⟩

theorem idxDropOps_props (p : Table × Table) : ∀ op ∈ idxDropOps p,
    (fwdStatement op).isTableLocal = true ∧ (fwdStatement op).tableName = p.2.name ∧
    (revStatement op).isTableLocal = true ∧ (revStatement op).tableName = p.2.name := by
  intro op hop
  rcases List.mem_map.mp hop with ⟨i, _, rfl⟩
  exact ⟨rfl, rfl, rfl, rfl⟩

theorem idxAddOps_props (p : Table × Table) : ∀ op ∈ idxAddOps p,
    (fwdStatement op).isTableLocal = true ∧ (fwdStatement op).tableName = p.2.name ∧
    (revStatement op).isTableLocal = true ∧ (revStatement op).tableName = p.2.name := by
  intro op hop
  rcases List.mem_map.mp hop with ⟨i, _, rfl⟩
  exact ⟨rfl, rfl, rfl, rfl⟩

theorem colDropOps_props (p : Table × Table) : ∀ op ∈ colDropOps p,
    (fwdStatement op).isTableLocal = true ∧ (fwdStatement op).tableName = p.2.name ∧
    (revStatement op).isTableLocal = true ∧ (revStatement op).tableName = p.2.name := by
  intro op hop
  rcases List.mem_map.mp hop with ⟨c, _, rfl⟩
  exact ⟨rfl, rfl, rfl, rfl⟩

theorem colAddOps_props (p : Table × Table) : ∀ op ∈ colAddOps p,
    (fwdStatement op).isTableLocal = true ∧ (fwdStatement op).tableName = p.2.name ∧
    (revStatement op).isTableLocal = true ∧ (revStatement op).tableName = p.2.name := by
  intro op hop
  rcases List.mem_map.mp hop with ⟨c, _, rfl⟩
  exact ⟨rfl, rfl, rfl, rfl⟩

theorem typeAlterOps_shape (p : Table × Table) : ∀ op ∈ typeAlterOps p,
    ∃ cn oldTy newTy, op = ChangeOp.alterColumnType p.2.name cn oldTy newTy := by
  intro op hop
  rcases List.mem_filterMap.mp hop with ⟨cb, _, hfm⟩
  split at hfm
  next ca hca =>
    split at hfm
    next hne => exact ⟨cb.name, ca.ctype, cb.ctype, (Option.some.inj hfm).symm⟩
    next hne => cases hfm
  next hca => cases hfm

theorem nullAlterOps_shape (p : Table × Table) : ∀ op ∈ nullAlterOps p,
    ∃ cn oldN newN, op = ChangeOp.alterColumnNullability p.2.name cn oldN newN := by
  intro op hop
  rcases List.mem_filterMap.mp hop with ⟨cb, _, hfm⟩
  split at hfm
  next ca hca =>
    split at hfm
    next hne => exact ⟨cb.name, ca.nullable, cb.nullable, (Option.some.inj hfm).symm⟩
    next hne => cases hfm
  next hca => cases hfm

theorem defAlterOps_shape (p : Table × Table) : ∀ op ∈ defAlterOps p,
    ∃ cn oldD newD, op = ChangeOp.alterColumnDefault p.2.name cn oldD newD := by
  intro op hop
  rcases List.mem_filterMap.mp hop with ⟨cb, _, hfm⟩
  split at hfm
  next ca hca =>
    split at hfm
    next hne => exact ⟨cb.name, ca.defaultExpr, cb.defaultExpr, (Option.some.inj hfm).symm⟩
    next hne => cases hfm
  next hca => cases hfm

theorem typeAlterOps_props (p : Table × Table) : ∀ op ∈ typeAlterOps p,
    (fwdStatement op).isTableLocal = true ∧ (fwdStatement op).tableName = p.2.name ∧
    (revStatement op).isTableLocal = true ∧ (revStatement op).tableName = p.2.name := by
  intro op hop
  rcases typeAlterOps_shape p op hop with ⟨cn, o, n, rfl⟩
  exact ⟨rfl, rfl, rfl, rfl⟩

theorem nullAlterOps_props (p : Table × Table) : ∀ op ∈ nullAlterOps p,
    (fwdStatement op).isTableLocal = true ∧ (fwdStatement op).tableName = p.2.name ∧
    (revStatement op).isTableLocal = true ∧ (revStatement op).tableName = p.2.name := by
  intro op hop
  rcases nullAlterOps_shape p op hop with ⟨cn, o, n, rfl⟩
  exact ⟨rfl, rfl, rfl, rfl⟩

theorem defAlterOps_props (p : Table × Table) : ∀ op ∈ defAlterOps p,
    (fwdStatement op).isTableLocal = true ∧ (fwdStatement op).tableName = p.2.name ∧
    (revStatement op).isTableLocal = true ∧ (revStatement op).tableName = p.2.name := by
  intro op hop
  rcases defAlterOps_shape p op hop with ⟨cn, o, n, rfl⟩
  exact ⟨rfl, rfl, rfl, rfl⟩

/-- Every statement of the four phase lists is table-local and addresses a
shared table. -/
theorem phase_stmts_props (A B : Schema) :
    ∀ l ∈ [fwdPreStmts A B, fwdPostStmts A B, revPreStmts A B, revPostStmts A B],
      ∀ st ∈ l, st.isTableLocal = true ∧ ∃ p ∈ sharedPairs A B, st.tableName = p.2.name := by
  intro l hl st hst
  have hseg : ∃ p ∈ sharedPairs A B, ∃ op,
      (st = fwdStatement op ∨ st = revStatement op) ∧
      ((fwdStatement op).isTableLocal = true ∧ (fwdStatement op).tableName = p.2.name ∧
       (revStatement op).isTableLocal = true ∧ (revStatement op).tableName = p.2.name) := by
    simp only [List.mem_cons, List.not_mem_nil, or_false] at hl
    rcases hl with rfl | rfl | rfl | rfl
    · unfold fwdPreStmts at hst
      rcases List.mem_append.mp hst with hst' | hst'
      rcases List.mem_append.mp hst' with hst'' | hst''
      · rcases mem_mapped_flatMap hst'' with ⟨p, hp, op, hop, rfl⟩
        exact ⟨p, hp, op, Or.inl rfl, conDropOps_props p op hop⟩
      · rcases mem_mapped_flatMap hst'' with ⟨p, hp, op, hop, rfl⟩
        exact ⟨p, hp, op, Or.inl rfl, idxDropOps_props p op hop⟩
      · rcases mem_mapped_flatMap hst' with ⟨p, hp, op, hop, rfl⟩
        exact ⟨p, hp, op, Or.inl rfl, colDropOps_props p op hop⟩
    · unfold fwdPostStmts at hst
      rcases List.mem_append.mp hst with hst' | hst'
      rcases List.mem_append.mp hst' with hst'' | hst''
      rcases List.mem_append.mp hst'' with hst3 | hst3
      rcases List.mem_append.mp hst3 with hst4 | hst4
      rcases List.mem_append.mp hst4 with hst5 | hst5
      · rcases mem_mapped_flatMap hst5 with ⟨p, hp, op, hop, rfl⟩
        exact ⟨p, hp, op, Or.inl rfl, colAddOps_props p op hop⟩
      · rcases mem_mapped_flatMap hst5 with ⟨p, hp, op, hop, rfl⟩
        exact ⟨p, hp, op, Or.inl rfl, typeAlterOps_props p op hop⟩
      · rcases mem_mapped_flatMap hst4 with ⟨p, hp, op, hop, rfl⟩
        exact ⟨p, hp, op, Or.inl rfl, nullAlterOps_props p op hop⟩
      · rcases mem_mapped_flatMap hst3 with ⟨p, hp, op, hop, rfl⟩
        exact ⟨p, hp, op, Or.inl rfl, defAlterOps_props p op hop⟩
      · rcases mem_mapped_flatMap hst'' with ⟨p, hp, op, hop, rfl⟩
        exact ⟨p, hp, op, Or.inl rfl, conAddOps_props p op hop⟩
      · rcases mem_mapped_flatMap hst' with ⟨p, hp, op, hop, rfl⟩
        exact ⟨p, hp, op, Or.inl rfl, idxAddOps_props p op hop⟩
    · unfold revPreStmts at hst
      rcases List.mem_append.mp hst with hst' | hst'
      rcases List.mem_append.mp hst' with hst'' | hst''
      rcases List.mem_append.mp hst'' with hst3 | hst3
      rcases List.mem_append.mp hst3 with hst4 | hst4
      rcases List.mem_append.mp hst4 with hst5 | hst5
      · rcases mem_mapped_flatMap (List.mem_reverse.mp hst5) with ⟨p, hp, op, hop, rfl⟩
        exact ⟨p, hp, op, Or.inr rfl, idxAddOps_props p op hop⟩
      · rcases mem_mapped_flatMap (List.mem_reverse.mp hst5) with ⟨p, hp, op, hop, rfl⟩
        exact ⟨p, hp, op, Or.inr rfl, conAddOps_props p op hop⟩
      · rcases mem_mapped_flatMap (List.mem_reverse.mp hst4) with ⟨p, hp, op, hop, rfl⟩
        exact ⟨p, hp, op, Or.inr rfl, defAlterOps_props p op hop⟩
      · rcases mem_mapped_flatMap (List.mem_reverse.mp hst3) with ⟨p, hp, op, hop, rfl⟩
        exact ⟨p, hp, op, Or.inr rfl, nullAlterOps_props p op hop⟩
      · rcases mem_mapped_flatMap (List.mem_reverse.mp hst'') with ⟨p, hp, op, hop, rfl⟩
        exact ⟨p, hp, op, Or.inr rfl, typeAlterOps_props p op hop⟩
      · rcases mem_mapped_flatMap (List.mem_reverse.mp hst') with ⟨p, hp, op, hop, rfl⟩
        exact ⟨p, hp, op, Or.inr rfl, colAddOps_props p op hop⟩
    · unfold revPostStmts at hst
      rcases List.mem_append.mp hst with hst' | hst'
      rcases List.mem_append.mp hst' with hst'' | hst''
      · rcases mem_mapped_flatMap (List.mem_reverse.mp hst'') with ⟨p, hp, op, hop, rfl⟩
        exact ⟨p, hp, op, Or.inr rfl, colDropOps_props p op hop⟩
      · rcases mem_mapped_flatMap (List.mem_reverse.mp hst'') with ⟨p, hp, op, hop, rfl⟩
        exact ⟨p, hp, op, Or.inr rfl, idxDropOps_props p op hop⟩
      · rcases mem_mapped_flatMap (List.mem_reverse.mp hst') with ⟨p, hp, op, hop, rfl⟩
        exact ⟨p, hp, op, Or.inr rfl, conDropOps_props p op hop⟩
  rcases hseg with ⟨p, hp, op, hor, hfl, hfn, hrl, hrn⟩
  rcases hor with rfl | rfl
  · exact ⟨hfl, p, hp, hfn⟩
  · exact ⟨hrl, p, hp, hrn⟩

/-! ## Facts about shared pairs -/

theorem sharedPairs_name {A B : Schema} {p : Table × Table} (hp : p ∈ sharedPairs A B) :
    p.1.name = p.2.name := by
  have h := (sharedPairs_mem hp).2
  unfold findTable at h
  have h2 := @List.find?_some Table (fun t => t.name == p.2.name) p.1 A h
  exact beq_iff_eq.mp h2

theorem sharedPairs_fst_mem {A B : Schema} {p : Table × Table} (hp : p ∈ sharedPairs A B) :
    p.1 ∈ A := by
  have h := (sharedPairs_mem hp).2
  unfold findTable at h
  exact List.mem_of_find?_eq_some h

theorem sharedPairs_complete {A B : Schema} {ta tb : Table} (htb : tb ∈ B)
    (hfind : findTable A tb.name = some ta) : (ta, tb) ∈ sharedPairs A B := by
  unfold sharedPairs sortTables
  exact List.mem_filterMap.mpr ⟨tb, (mem_sortByKey _ _ _).mpr htb, by rw [hfind]; rfl⟩

theorem map_filterMap_sublist {α β γ : Type} (f : α → Option β) (g : β → γ) (h : α → γ)
    (l : List α) (hfg : ∀ a b, f a = some b → g b = h a) :
    ((l.filterMap f).map g).Sublist (l.map h) := by
  induction l with
  | nil => simp
  | cons a l ih =>
    rw [List.filterMap_cons]
    cases hfa : f a with
    | none =>
      rw [List.map_cons]
      exact ih.cons _
    | some b =>
      rw [List.map_cons, List.map_cons, hfg a b hfa]
      exact ih.cons₂ _

/-- The desired-side names of the shared pairs are pairwise distinct when the
desired schema is well formed. -/
theorem sharedPairs_names_nodup {A B : Schema} (ndB : (B.map (fun t => t.name)).Nodup) :
    ((sharedPairs A B).map (fun p => p.2.name)).Nodup := by
  have hsub : ((sharedPairs A B).map (fun p => p.2.name)).Sublist
      ((sortTables B).map (fun t => t.name)) := by
    unfold sharedPairs
    apply map_filterMap_sublist
    intro tB p hp
    rcases Option.map_eq_some'.mp hp with ⟨tA, _, rfl⟩
    rfl
  have : ((sortTables B).map (fun t => t.name)).Nodup :=
    (((perm_sortByKey (fun t : Table => t.name) B).map (fun t => t.name)).nodup_iff).mpr ndB
  exact hsub.nodup this

/-- The shared pairs' names are names of current-side tables. -/
theorem sharedPairs_name_mem_A {A B : Schema} {p : Table × Table} (hp : p ∈ sharedPairs A B) :
    p.2.name ∈ A.map (fun t => t.name) :=
  (sharedPairs_name hp) ▸ List.mem_map_of_mem (fun t => t.name) (sharedPairs_fst_mem hp)

/-- Collapse of one mapped generator phase under the table-name filter, for
either statement direction. -/
theorem filter_phase_collapse (F : ChangeOp → Statement) (G : Table × Table → List ChangeOp)
    {A B : Schema} (props : ∀ p, ∀ op ∈ G p, (F op).tableName = p.2.name)
    (nd : ((sharedPairs A B).map (fun p => p.2.name)).Nodup)
    {q : Table × Table} (hq : q ∈ sharedPairs A B) :
    (((sharedPairs A B).flatMap G).map F).filter (fun st => st.tableName == q.2.name) =
      (G q).map F := by
  rw [List.map_flatMap]
  exact flatMap_filter_key_collapse (fun p => p.2.name) Statement.tableName
    (fun p => (G p).map F)
    (fun p st hst => by
      rcases List.mem_map.mp hst with ⟨op, hop, rfl⟩
      exact props p op hop)
    nd hq

/-- Reversed variant of `filter_phase_collapse`. -/
theorem filter_phase_collapse_rev (F : ChangeOp → Statement) (G : Table × Table → List ChangeOp)
    {A B : Schema} (props : ∀ p, ∀ op ∈ G p, (F op).tableName = p.2.name)
    (nd : ((sharedPairs A B).map (fun p => p.2.name)).Nodup)
    {q : Table × Table} (hq : q ∈ sharedPairs A B) :
    ((((sharedPairs A B).flatMap G).map F).reverse).filter (fun st => st.tableName == q.2.name) =
      ((G q).map F).reverse := by
  rw [List.filter_reverse, filter_phase_collapse F G props nd hq]

/-! ## Closed forms of the mapped generator statement lists -/

theorem conDropOps_map_fwd (p : Table × Table) :
    (conDropOps p).map fwdStatement =
      (sortByKey renderConstraint (p.1.constraints.filter (fun c => !(p.2.constraints.contains c)))).map
        (fun c => Statement.dropConstraint p.2.name c) := by
  unfold conDropOps
  rw [List.map_map]
  rfl

theorem conAddOps_map_fwd (p : Table × Table) :
    (conAddOps p).map fwdStatement =
      (sortByKey renderConstraint (p.2.constraints.filter (fun c => !(p.1.constraints.contains c)))).map
        (fun c => Statement.addConstraint p.2.name c) := by
  unfold conAddOps
  rw [List.map_map]
  rfl

theorem idxDropOps_map_fwd (p : Table × Table) :
    (idxDropOps p).map fwdStatement =
      (sortByKey (fun i => i.name)
          (p.1.indexes.filter (fun i => !(p.2.indexes.any (fun j => idxEquiv i j))))).map
        (fun i => Statement.dropIndex p.2.name i) := by
  unfold idxDropOps
  rw [List.map_map]
  rfl

theorem idxAddOps_map_fwd (p : Table × Table) :
    (idxAddOps p).map fwdStatement =
      (sortByKey (fun i => i.name)
          (p.2.indexes.filter (fun i => !(p.1.indexes.any (fun j => idxEquiv i j))))).map
        (fun i => Statement.createIndex p.2.name i) := by
  unfold idxAddOps
  rw [List.map_map]
  rfl

theorem colDropOps_map_fwd (p : Table × Table) :
    (colDropOps p).map fwdStatement =
      (sortByKey (fun c => c.name)
          (p.1.columns.filter (fun c => !(p.2.columns.any (fun d => d.name == c.name))))).map
        (fun c => Statement.dropColumn p.2.name c.name) := by
  unfold colDropOps
  rw [List.map_map]
  rfl

theorem colAddOps_map_fwd (p : Table × Table) :
    (colAddOps p).map fwdStatement =
      (sortByKey (fun c => c.name)
          (p.2.columns.filter (fun c => !(p.1.columns.any (fun d => d.name == c.name))))).map
        (fun c => Statement.addColumn p.2.name c) := by
  unfold colAddOps
  rw [List.map_map]
  rfl

theorem conDropOps_map_rev (p : Table × Table) :
    (conDropOps p).map revStatement =
      (sortByKey renderConstraint (p.1.constraints.filter (fun c => !(p.2.constraints.contains c)))).map
        (fun c => Statement.addConstraint p.2.name c) := by
  unfold conDropOps
  rw [List.map_map]
  rfl

theorem conAddOps_map_rev (p : Table × Table) :
    (conAddOps p).map revStatement =
      (sortByKey renderConstraint (p.2.constraints.filter (fun c => !(p.1.constraints.contains c)))).map
        (fun c => Statement.dropConstraint p.2.name c) := by
  unfold conAddOps
  rw [List.map_map]
  rfl

theorem idxDropOps_map_rev (p : Table × Table) :
    (idxDropOps p).map revStatement =
      (sortByKey (fun i => i.name)
          (p.1.indexes.filter (fun i => !(p.2.indexes.any (fun j => idxEquiv i j))))).map
        (fun i => Statement.createIndex p.2.name i) := by
  unfold idxDropOps
  rw [List.map_map]
  rfl

theorem idxAddOps_map_rev (p : Table × Table) :
    (idxAddOps p).map revStatement =
      (sortByKey (fun i => i.name)
          (p.2.indexes.filter (fun i => !(p.1.indexes.any (fun j => idxEquiv i j))))).map
        (fun i => Statement.dropIndex p.2.name i) := by
  unfold idxAddOps
  rw [List.map_map]
  rfl

theorem colDropOps_map_rev (p : Table × Table) :
    (colDropOps p).map revStatement =
      (sortByKey (fun c => c.name)
          (p.1.columns.filter (fun c => !(p.2.columns.any (fun d => d.name == c.name))))).map
        (fun c => Statement.addColumn p.2.name c) := by
  unfold colDropOps
  rw [List.map_map]
  rfl

theorem colAddOps_map_rev (p : Table × Table) :
    (colAddOps p).map revStatement =
      (sortByKey (fun c => c.name)
          (p.2.columns.filter (fun c => !(p.1.columns.any (fun d => d.name == c.name))))).map
        (fun c => Statement.dropColumn p.2.name c.name) := by
  unfold colAddOps
  rw [List.map_map]
  rfl

theorem typeAlterOps_map_fwd (p : Table × Table) :
    (typeAlterOps p).map fwdStatement =
      (sortByKey (fun c => c.name) p.2.columns).filterMap (fun cb =>
        match p.1.columns.find? (fun d => d.name == cb.name) with
        | some ca =>
          if ca.ctype ≠ cb.ctype then
            some (Statement.alterColumnType p.2.name cb.name cb.ctype)
          else none
        | none => none) := by
  unfold typeAlterOps
  rw [List.map_filterMap]
  apply List.filterMap_congr
  intro cb _
  cases p.1.columns.find? (fun d => d.name == cb.name) with
  | none => rfl
  | some ca => split <;> first | rfl | (split <;> rfl)

theorem nullAlterOps_map_fwd (p : Table × Table) :
    (nullAlterOps p).map fwdStatement =
      (sortByKey (fun c => c.name) p.2.columns).filterMap (fun cb =>
        match p.1.columns.find? (fun d => d.name == cb.name) with
        | some ca =>
          if ca.nullable ≠ cb.nullable then
            some (Statement.setNullability p.2.name cb.name cb.nullable)
          else none
        | none => none) := by
  unfold nullAlterOps
  rw [List.map_filterMap]
  apply List.filterMap_congr
  intro cb _
  cases p.1.columns.find? (fun d => d.name == cb.name) with
  | none => rfl
  | some ca => split <;> first | rfl | (split <;> rfl)

theorem defAlterOps_map_fwd (p : Table × Table) :
    (defAlterOps p).map fwdStatement =
      (sortByKey (fun c => c.name) p.2.columns).filterMap (fun cb =>
        match p.1.columns.find? (fun d => d.name == cb.name) with
        | some ca =>
          if ca.defaultExpr ≠ cb.defaultExpr then
            some (Statement.setDefault p.2.name cb.name cb.defaultExpr)
          else none
        | none => none) := by
  unfold defAlterOps
  rw [List.map_filterMap]
  apply List.filterMap_congr
  intro cb _
  cases p.1.columns.find? (fun d => d.name == cb.name) with
  | none => rfl
  | some ca => split <;> first | rfl | (split <;> rfl)

theorem typeAlterOps_map_rev (p : Table × Table) :
    (typeAlterOps p).map revStatement =
      (sortByKey (fun c => c.name) p.2.columns).filterMap (fun cb =>
        match p.1.columns.find? (fun d => d.name == cb.name) with
        | some ca =>
          if ca.ctype ≠ cb.ctype then
            some (Statement.alterColumnType p.2.name cb.name ca.ctype)
          else none
        | none => none) := by
  unfold typeAlterOps
  rw [List.map_filterMap]
  apply List.filterMap_congr
  intro cb _
  cases p.1.columns.find? (fun d => d.name == cb.name) with
  | none => rfl
  | some ca => split <;> first | rfl | (split <;> rfl)

theorem nullAlterOps_map_rev (p : Table × Table) :
    (nullAlterOps p).map revStatement =
      (sortByKey (fun c => c.name) p.2.columns).filterMap (fun cb =>
        match p.1.columns.find? (fun d => d.name == cb.name) with
        | some ca =>
          if ca.nullable ≠ cb.nullable then
            some (Statement.setNullability p.2.name cb.name ca.nullable)
          else none
        | none => none) := by
  unfold nullAlterOps
  rw [List.map_filterMap]
  apply List.filterMap_congr
  intro cb _
  cases p.1.columns.find? (fun d => d.name == cb.name) with
  | none => rfl
  | some ca => split <;> first | rfl | (split <;> rfl)

theorem defAlterOps_map_rev (p : Table × Table) :
    (defAlterOps p).map revStatement =
      (sortByKey (fun c => c.name) p.2.columns).filterMap (fun cb =>
        match p.1.columns.find? (fun d => d.name == cb.name) with
        | some ca =>
          if ca.defaultExpr ≠ cb.defaultExpr then
            some (Statement.setDefault p.2.name cb.name ca.defaultExpr)
          else none
        | none => none) := by
  unfold defAlterOps
  rw [List.map_filterMap]
  apply List.filterMap_congr
  intro cb _
  cases p.1.columns.find? (fun d => d.name == cb.name) with
  | none => rfl
  | some ca => split <;> first | rfl | (split <;> rfl)

/-! ## Structural-equivalence and field-filter helpers -/

theorem idxEquiv_refl (i : Index) : idxEquiv i i = true := by
  simp [idxEquiv]

theorem idxEquiv_eq {i j : Index} : idxEquiv i j = true ↔ idxKey i = idxKey j := by
  simp [idxEquiv]

theorem any_idxEquiv_congr {i j : Index} (hk : idxKey i = idxKey j) (l : List Index) :
    l.any (fun x => idxEquiv i x) = l.any (fun x => idxEquiv j x) := by
  congr 1
  funext x
  simp [idxEquiv, hk]

theorem find?_name_unique {cols : List Column} (nd : (cols.map (fun c => c.name)).Nodup)
    {c : Column} (hc : c ∈ cols) {m : String} (hm : c.name = m) :
    cols.find? (fun d => d.name == m) = some c := by
  have h : cols.find? (fun d => d.name == c.name) = some c :=
    find?_key_unique (fun c : Column => c.name) nd hc
  rw [hm] at h
  exact h

/-- Dropping exactly the constraints absent from the desired side keeps
exactly the ones present in it. -/
theorem drop_filter_constraints (cs₁ cs₂ : List Constraint) :
    cs₁.filter (fun d =>
        !((sortByKey renderConstraint (cs₁.filter (fun c => !(cs₂.contains c)))).any
          (fun c => d == c))) =
      cs₁.filter (fun c => cs₂.contains c) := by
  apply List.filter_congr
  intro d hd
  cases hc : cs₂.contains d with
  | true =>
    rw [Bool.not_eq_true']
    apply List.any_eq_false.mpr
    intro x hx hdx
    have hmem := List.mem_filter.mp ((mem_sortByKey _ _ _).mp hx)
    have hde : d = x := beq_iff_eq.mp hdx
    rw [← hde, hc] at hmem
    simp at hmem
  | false =>
    rw [Bool.not_eq_false']
    apply List.any_eq_true.mpr
    refine ⟨d, (mem_sortByKey _ _ _).mpr (List.mem_filter.mpr ⟨hd, by rw [Bool.not_eq_true']; exact hc⟩), by simp⟩

/-- Dropping exactly the columns whose names are absent from the desired side
keeps exactly the ones whose names are present. -/
theorem drop_filter_columns (cols₁ cols₂ : List Column) :
    cols₁.filter (fun d =>
        !((sortByKey (fun c => c.name)
            (cols₁.filter (fun c => !(cols₂.any (fun dd => dd.name == c.name))))).any
          (fun c => d.name == c.name))) =
      cols₁.filter (fun c => cols₂.any (fun dd => dd.name == c.name)) := by
  apply List.filter_congr
  intro d hd
  cases hc : cols₂.any (fun dd => dd.name == d.name) with
  | true =>
    rw [Bool.not_eq_true']
    apply List.any_eq_false.mpr
    intro x hx hdx
    have hmem := List.mem_filter.mp ((mem_sortByKey _ _ _).mp hx)
    have hde : d.name = x.name := beq_iff_eq.mp hdx
    have : cols₂.any (fun dd => dd.name == x.name) = true := by
      rw [← hde]
      exact hc
    rw [this] at hmem
    simp at hmem
  | false =>
    rw [Bool.not_eq_false']
    apply List.any_eq_true.mpr
    refine ⟨d, (mem_sortByKey _ _ _).mpr (List.mem_filter.mpr ⟨hd, by rw [Bool.not_eq_true']; exact hc⟩), by simp⟩

/-- Dropping exactly the indexes with no structural counterpart on the desired
side keeps exactly the ones with a counterpart. -/
theorem drop_filter_indexes (is₁ is₂ : List Index) :
    is₁.filter (fun j =>
        !((sortByKey (fun i => i.name)
            (is₁.filter (fun i => !(is₂.any (fun jj => idxEquiv i jj))))).any
          (fun i => idxEquiv j i))) =
      is₁.filter (fun i => is₂.any (fun jj => idxEquiv i jj)) := by
  apply List.filter_congr
  intro d hd
  cases hc : is₂.any (fun jj => idxEquiv d jj) with
  | true =>
    rw [Bool.not_eq_true']
    apply List.any_eq_false.mpr
    intro x hx hdx
    have hmem := List.mem_filter.mp ((mem_sortByKey _ _ _).mp hx)
    have hde : idxKey d = idxKey x := idxEquiv_eq.mp hdx
    rw [any_idxEquiv_congr hde.symm is₂, hc] at hmem
    simp at hmem
  | false =>
    rw [Bool.not_eq_false']
    apply List.any_eq_true.mpr
    exact ⟨d, (mem_sortByKey _ _ _).mpr (List.mem_filter.mpr ⟨hd, by rw [Bool.not_eq_true']; exact hc⟩), idxEquiv_refl d⟩

theorem updFrom_name (tB : Table) (c : Column) : (updFrom tB c).name = c.name := by
  unfold updFrom
  cases tB.columns.find? (fun d => d.name == c.name) <;> rfl

/-- Column-specialized form of `filterMap_filter_key_collapse`. -/
theorem filterMap_filter_colName_collapse (f : Column → Option Statement) {cols : List Column}
    (hf : ∀ a b, f a = some b → Statement.colName b = a.name)
    (nd : (cols.map (fun c => c.name)).Nodup) {cb : Column} (hcb : cb ∈ cols) :
    (cols.filterMap f).filter (fun st => st.colName == cb.name) = (f cb).toList :=
  filterMap_filter_key_collapse f Statement.colName (fun c => c.name) hf nd hcb

/-- The column addressed by an alteration op is (the name of) a column of the
current side. -/
theorem typeAlterOps_colName (q : Table × Table) : ∀ op ∈ typeAlterOps q,
    ∃ ca ∈ q.1.columns, (fwdStatement op).colName = ca.name ∧
      (revStatement op).colName = ca.name := by
  intro op hop
  rcases List.mem_filterMap.mp hop with ⟨cb, _, hfm⟩
  split at hfm
  next ca hca =>
    split at hfm
    next =>
      have hcan : ca.name = cb.name :=
        beq_iff_eq.mp (@List.find?_some Column (fun d => d.name == cb.name) ca q.1.columns hca)
      rw [← Option.some.inj hfm]
      exact ⟨ca, List.mem_of_find?_eq_some hca, hcan.symm, hcan.symm⟩
    next => cases hfm
  next => cases hfm

theorem nullAlterOps_colName (q : Table × Table) : ∀ op ∈ nullAlterOps q,
    ∃ ca ∈ q.1.columns, (fwdStatement op).colName = ca.name ∧
      (revStatement op).colName = ca.name := by
  intro op hop
  rcases List.mem_filterMap.mp hop with ⟨cb, _, hfm⟩
  split at hfm
  next ca hca =>
    split at hfm
    next =>
      have hcan : ca.name = cb.name :=
        beq_iff_eq.mp (@List.find?_some Column (fun d => d.name == cb.name) ca q.1.columns hca)
      rw [← Option.some.inj hfm]
      exact ⟨ca, List.mem_of_find?_eq_some hca, hcan.symm, hcan.symm⟩
    next => cases hfm
  next => cases hfm

theorem defAlterOps_colName (q : Table × Table) : ∀ op ∈ defAlterOps q,
    ∃ ca ∈ q.1.columns, (fwdStatement op).colName = ca.name ∧
      (revStatement op).colName = ca.name := by
  intro op hop
  rcases List.mem_filterMap.mp hop with ⟨cb, _, hfm⟩
  split at hfm
  next ca hca =>
    split at hfm
    next =>
      have hcan : ca.name = cb.name :=
        beq_iff_eq.mp (@List.find?_some Column (fun d => d.name == cb.name) ca q.1.columns hca)
      rw [← Option.some.inj hfm]
      exact ⟨ca, List.mem_of_find?_eq_some hca, hcan.symm, hcan.symm⟩
    next => cases hfm
  next => cases hfm

/-- Alteration statements never address a column name that is absent from the
current side, in either direction. -/
theorem alter_stmts_skip_new {q : Table × Table} {c : Column}
    (hnot : q.1.columns.any (fun d => d.name == c.name) = false) :
    ∀ st, ((st ∈ (typeAlterOps q).map fwdStatement ∨ st ∈ (nullAlterOps q).map fwdStatement ∨
            st ∈ (defAlterOps q).map fwdStatement) ∨
           (st ∈ (typeAlterOps q).map revStatement ∨ st ∈ (nullAlterOps q).map revStatement ∨
            st ∈ (defAlterOps q).map revStatement)) →
      (st.colName == c.name) = false := by
  intro st hst
  have hca : ∃ ca ∈ q.1.columns, st.colName = ca.name := by
    rcases hst with (h | h | h) | (h | h | h) <;>
      (rcases List.mem_map.mp h with ⟨op, hop, rfl⟩)
    · rcases typeAlterOps_colName q op hop with ⟨ca, hmem, hf, _⟩
      exact ⟨ca, hmem, hf⟩
    · rcases nullAlterOps_colName q op hop with ⟨ca, hmem, hf, _⟩
      exact ⟨ca, hmem, hf⟩
    · rcases defAlterOps_colName q op hop with ⟨ca, hmem, hf, _⟩
      exact ⟨ca, hmem, hf⟩
    · rcases typeAlterOps_colName q op hop with ⟨ca, hmem, _, hr⟩
      exact ⟨ca, hmem, hr⟩
    · rcases nullAlterOps_colName q op hop with ⟨ca, hmem, _, hr⟩
      exact ⟨ca, hmem, hr⟩
    · rcases defAlterOps_colName q op hop with ⟨ca, hmem, _, hr⟩
      exact ⟨ca, hmem, hr⟩
  rcases hca with ⟨ca, hmem, hname⟩
  rw [hname]
  apply beq_eq_false_iff_ne.mpr
  intro he
  have : q.1.columns.any (fun d => d.name == c.name) = true :=
    List.any_eq_true.mpr ⟨ca, hmem, by simp [he]⟩
  rw [hnot] at this
  cases this

theorem toList_reverse {α : Type} (o : Option α) : o.toList.reverse = o.toList := by
  cases o <;> rfl

/-- Forward effect of the three alteration phases on a surviving shared
column: its type, nullability and default become the desired side's. -/
theorem fwd_updates_kept (q : Table × Table)
    (wf1 : Table.wf q.1 = true) (wf2 : Table.wf q.2 = true)
    {c : Column} (hc : c ∈ q.1.columns)
    (hkeep : q.2.columns.any (fun d => d.name == c.name) = true) :
    colUpdFold ((typeAlterOps q).map fwdStatement ++
        (nullAlterOps q).map fwdStatement ++ (defAlterOps q).map fwdStatement) c =
      updFrom q.2 c := by
  obtain ⟨cb, hcbB, hcbeq⟩ := List.any_eq_true.mp hkeep
  have hcbname : cb.name = c.name := beq_iff_eq.mp hcbeq
  have nd1 : (q.1.columns.map (fun c => c.name)).Nodup := by
    simpa [Table.wf] using wf1
  have nd2 : (q.2.columns.map (fun c => c.name)).Nodup := by
    simpa [Table.wf] using wf2
  have nds2 : ((sortByKey (fun c => c.name) q.2.columns).map (fun c => c.name)).Nodup :=
    (((perm_sortByKey (fun c : Column => c.name) q.2.columns).map _).nodup_iff).mpr nd2
  have hcbmem : cb ∈ sortByKey (fun c => c.name) q.2.columns := (mem_sortByKey _ _ _).mpr hcbB
  have hfindA : q.1.columns.find? (fun d => d.name == cb.name) = some c :=
    find?_name_unique nd1 hc hcbname.symm
  have hfindB : q.2.columns.find? (fun d => d.name == c.name) = some cb :=
    find?_name_unique nd2 hcbB hcbname
  have hf6 : ∀ (a : Column) (b : Statement), (fun cb => match q.1.columns.find? (fun d => d.name == cb.name) with
      | some ca =>
        if ca.ctype ≠ cb.ctype then some (Statement.alterColumnType q.2.name cb.name cb.ctype)
        else none
      | none => none) a = some b → Statement.colName b = a.name := by
    intro a b hab
    beta_reduce at hab
    split at hab
    next ca hca =>
      split at hab
      next => rw [← Option.some.inj hab]; rfl
      next => cases hab
    next => cases hab
  have hf7 : ∀ (a : Column) (b : Statement), (fun cb => match q.1.columns.find? (fun d => d.name == cb.name) with
      | some ca =>
        if ca.nullable ≠ cb.nullable then some (Statement.setNullability q.2.name cb.name cb.nullable)
        else none
      | none => none) a = some b → Statement.colName b = a.name := by
    intro a b hab
    beta_reduce at hab
    split at hab
    next ca hca =>
      split at hab
      next => rw [← Option.some.inj hab]; rfl
      next => cases hab
    next => cases hab
  have hf8 : ∀ (a : Column) (b : Statement), (fun cb => match q.1.columns.find? (fun d => d.name == cb.name) with
      | some ca =>
        if ca.defaultExpr ≠ cb.defaultExpr then some (Statement.setDefault q.2.name cb.name cb.defaultExpr)
        else none
      | none => none) a = some b → Statement.colName b = a.name := by
    intro a b hab
    beta_reduce at hab
    split at hab
    next ca hca =>
      split at hab
      next => rw [← Option.some.inj hab]; rfl
      next => cases hab
    next => cases hab
  rw [colUpdFold_filter, List.filter_append, List.filter_append,
    typeAlterOps_map_fwd, nullAlterOps_map_fwd, defAlterOps_map_fwd]
  have hpred : (fun st : Statement => st.colName == c.name) =
      (fun st : Statement => st.colName == cb.name) := by
    funext st
    rw [hcbname]
  rw [hpred,
    filterMap_filter_colName_collapse _ hf6 nds2 hcbmem,
    filterMap_filter_colName_collapse _ hf7 nds2 hcbmem,
    filterMap_filter_colName_collapse _ hf8 nds2 hcbmem,
    hfindA]
  unfold updFrom
  rw [hfindB]
  by_cases h6 : c.ctype = cb.ctype <;> by_cases h7 : c.nullable = cb.nullable <;>
    by_cases h8 : c.defaultExpr = cb.defaultExpr <;>
    simp [h6, h7, h8, colUpdFold, colUpd, hcbname] <;> (cases c; simp_all)

/-- The three forward alteration phases leave a column with a fresh name
untouched. -/
theorem fwd_updates_added (q : Table × Table) {c : Column}
    (hnot : q.1.columns.any (fun d => d.name == c.name) = false) :
    colUpdFold ((typeAlterOps q).map fwdStatement ++
        (nullAlterOps q).map fwdStatement ++ (defAlterOps q).map fwdStatement) c = c := by
  rw [colUpdFold_filter]
  have h : ((typeAlterOps q).map fwdStatement ++
      (nullAlterOps q).map fwdStatement ++ (defAlterOps q).map fwdStatement).filter
        (fun st => st.colName == c.name) = [] := by
    apply List.filter_eq_nil_iff.mpr
    intro st hst
    simp only [List.mem_append] at hst
    have := alter_stmts_skip_new hnot st (Or.inl (by tauto))
    simp [this]
  rw [h]
  rfl

/-- Reverse effect of the three alteration phases on a surviving shared
column: the original attributes are restored. -/
theorem rev_updates_kept (q : Table × Table)
    (wf1 : Table.wf q.1 = true) (wf2 : Table.wf q.2 = true)
    {c : Column} (hc : c ∈ q.1.columns)
    (hkeep : q.2.columns.any (fun d => d.name == c.name) = true) :
    colUpdFold ((((defAlterOps q).map revStatement).reverse) ++
        (((nullAlterOps q).map revStatement).reverse) ++
        (((typeAlterOps q).map revStatement).reverse)) (updFrom q.2 c) = c := by
  obtain ⟨cb, hcbB, hcbeq⟩ := List.any_eq_true.mp hkeep
  have hcbname : cb.name = c.name := beq_iff_eq.mp hcbeq
  have nd1 : (q.1.columns.map (fun c => c.name)).Nodup := by
    simpa [Table.wf] using wf1
  have nd2 : (q.2.columns.map (fun c => c.name)).Nodup := by
    simpa [Table.wf] using wf2
  have nds2 : ((sortByKey (fun c => c.name) q.2.columns).map (fun c => c.name)).Nodup :=
    (((perm_sortByKey (fun c : Column => c.name) q.2.columns).map _).nodup_iff).mpr nd2
  have hcbmem : cb ∈ sortByKey (fun c => c.name) q.2.columns := (mem_sortByKey _ _ _).mpr hcbB
  have hfindA : q.1.columns.find? (fun d => d.name == cb.name) = some c :=
    find?_name_unique nd1 hc hcbname.symm
  have hfindB : q.2.columns.find? (fun d => d.name == c.name) = some cb :=
    find?_name_unique nd2 hcbB hcbname
  have hf6 : ∀ (a : Column) (b : Statement), (fun cb => match q.1.columns.find? (fun d => d.name == cb.name) with
      | some ca =>
        if ca.ctype ≠ cb.ctype then some (Statement.alterColumnType q.2.name cb.name ca.ctype)
        else none
      | none => none) a = some b → Statement.colName b = a.name := by
    intro a b hab
    beta_reduce at hab
    split at hab
    next ca hca =>
      split at hab
      next => rw [← Option.some.inj hab]; rfl
      next => cases hab
    next => cases hab
  have hf7 : ∀ (a : Column) (b : Statement), (fun cb => match q.1.columns.find? (fun d => d.name == cb.name) with
      | some ca =>
        if ca.nullable ≠ cb.nullable then some (Statement.setNullability q.2.name cb.name ca.nullable)
        else none
      | none => none) a = some b → Statement.colName b = a.name := by
    intro a b hab
    beta_reduce at hab
    split at hab
    next ca hca =>
      split at hab
      next => rw [← Option.some.inj hab]; rfl
      next => cases hab
    next => cases hab
  have hf8 : ∀ (a : Column) (b : Statement), (fun cb => match q.1.columns.find? (fun d => d.name == cb.name) with
      | some ca =>
        if ca.defaultExpr ≠ cb.defaultExpr then some (Statement.setDefault q.2.name cb.name ca.defaultExpr)
        else none
      | none => none) a = some b → Statement.colName b = a.name := by
    intro a b hab
    beta_reduce at hab
    split at hab
    next ca hca =>
      split at hab
      next => rw [← Option.some.inj hab]; rfl
      next => cases hab
    next => cases hab
  rw [colUpdFold_filter]
  simp only [updFrom_name]
  rw [List.filter_append, List.filter_append,
    defAlterOps_map_rev, nullAlterOps_map_rev, typeAlterOps_map_rev,
    List.filter_reverse, List.filter_reverse, List.filter_reverse]
  have hpred : (fun st : Statement => st.colName == c.name) =
      (fun st : Statement => st.colName == cb.name) := by
    funext st
    rw [hcbname]
  rw [hpred,
    filterMap_filter_colName_collapse _ hf8 nds2 hcbmem,
    filterMap_filter_colName_collapse _ hf7 nds2 hcbmem,
    filterMap_filter_colName_collapse _ hf6 nds2 hcbmem,
    toList_reverse, toList_reverse, toList_reverse, hfindA]
  unfold updFrom
  rw [hfindB]
  by_cases h6 : c.ctype = cb.ctype <;> by_cases h7 : c.nullable = cb.nullable <;>
    by_cases h8 : c.defaultExpr = cb.defaultExpr <;>
    simp [h6, h7, h8, colUpdFold, colUpd, hcbname] <;> (cases c; simp_all)

/-- The three reverse alteration phases leave a column with a fresh name
untouched. -/
theorem rev_updates_added (q : Table × Table) {c : Column}
    (hnot : q.1.columns.any (fun d => d.name == c.name) = false) :
    colUpdFold ((((defAlterOps q).map revStatement).reverse) ++
        (((nullAlterOps q).map revStatement).reverse) ++
        (((typeAlterOps q).map revStatement).reverse)) c = c := by
  rw [colUpdFold_filter]
  have h : ((((defAlterOps q).map revStatement).reverse) ++
      (((nullAlterOps q).map revStatement).reverse) ++
      (((typeAlterOps q).map revStatement).reverse)).filter
        (fun st => st.colName == c.name) = [] := by
    apply List.filter_eq_nil_iff.mpr
    intro st hst
    simp only [List.mem_append, List.mem_reverse] at hst
    have := alter_stmts_skip_new hnot st (Or.inr (by tauto))
    simp [this]
  rw [h]
  rfl

/-- Undoing the added constraints removes exactly the added tail. -/
theorem rev_filter_constraints (cs₁ cs₂ : List Constraint) :
    (cs₁.filter (fun c => cs₂.contains c) ++
        sortByKey renderConstraint (cs₂.filter (fun c => !(cs₁.contains c)))).filter
      (fun d =>
        !((sortByKey renderConstraint (cs₂.filter (fun c => !(cs₁.contains c)))).reverse.any
          (fun c => d == c))) =
      cs₁.filter (fun c => cs₂.contains c) := by
  rw [List.filter_append]
  have h₁ : (cs₁.filter (fun c => cs₂.contains c)).filter
      (fun d =>
        !((sortByKey renderConstraint (cs₂.filter (fun c => !(cs₁.contains c)))).reverse.any
          (fun c => d == c))) = cs₁.filter (fun c => cs₂.contains c) := by
    apply List.filter_eq_self.mpr
    intro d hd
    rw [Bool.not_eq_true']
    apply List.any_eq_false.mpr
    intro x hx hdx
    have hxmem := List.mem_filter.mp ((mem_sortByKey _ _ _).mp (List.mem_reverse.mp hx))
    have hde : d = x := beq_iff_eq.mp hdx
    have hdc : d ∈ cs₁ := (List.mem_filter.mp hd).1
    rw [hde] at hdc
    have : cs₁.contains x = true := by simp [hdc]
    rw [this] at hxmem
    simp at hxmem
  have h₂ : (sortByKey renderConstraint (cs₂.filter (fun c => !(cs₁.contains c)))).filter
      (fun d =>
        !((sortByKey renderConstraint (cs₂.filter (fun c => !(cs₁.contains c)))).reverse.any
          (fun c => d == c))) = [] := by
    apply List.filter_eq_nil_iff.mpr
    intro d hd
    simp only [Bool.not_eq_true, Bool.not_eq_true']
    intro hfalse
    have : (sortByKey renderConstraint (cs₂.filter (fun c => !(cs₁.contains c)))).reverse.any
        (fun c => d == c) = true :=
      List.any_eq_true.mpr ⟨d, List.mem_reverse.mpr hd, by simp⟩
    rw [this] at hfalse
    cases hfalse
  rw [h₁, h₂, List.append_nil]

/-- Undoing the added columns removes exactly the added tail. -/
theorem rev_filter_columns (cols₁ cols₂ : List Column) :
    (cols₁.filter (fun c => cols₂.any (fun dd => dd.name == c.name)) ++
        sortByKey (fun c => c.name)
          (cols₂.filter (fun c => !(cols₁.any (fun d => d.name == c.name))))).filter
      (fun d =>
        !((sortByKey (fun c => c.name)
            (cols₂.filter (fun c => !(cols₁.any (fun d => d.name == c.name))))).reverse.any
          (fun c => d.name == c.name))) =
      cols₁.filter (fun c => cols₂.any (fun dd => dd.name == c.name)) := by
  rw [List.filter_append]
  have h₁ : (cols₁.filter (fun c => cols₂.any (fun dd => dd.name == c.name))).filter
      (fun d =>
        !((sortByKey (fun c => c.name)
            (cols₂.filter (fun c => !(cols₁.any (fun d => d.name == c.name))))).reverse.any
          (fun c => d.name == c.name))) =
      cols₁.filter (fun c => cols₂.any (fun dd => dd.name == c.name)) := by
    apply List.filter_eq_self.mpr
    intro d hd
    rw [Bool.not_eq_true']
    apply List.any_eq_false.mpr
    intro x hx hdx
    have hxmem := List.mem_filter.mp ((mem_sortByKey _ _ _).mp (List.mem_reverse.mp hx))
    have hde : d.name = x.name := beq_iff_eq.mp hdx
    have hdc : d ∈ cols₁ := (List.mem_filter.mp hd).1
    have : cols₁.any (fun dd => dd.name == x.name) = true :=
      List.any_eq_true.mpr ⟨d, hdc, by simp [hde]⟩
    rw [this] at hxmem
    simp at hxmem
  have h₂ : (sortByKey (fun c => c.name)
        (cols₂.filter (fun c => !(cols₁.any (fun d => d.name == c.name))))).filter
      (fun d =>
        !((sortByKey (fun c => c.name)
            (cols₂.filter (fun c => !(cols₁.any (fun d => d.name == c.name))))).reverse.any
          (fun c => d.name == c.name))) = [] := by
    apply List.filter_eq_nil_iff.mpr
    intro d hd
    simp only [Bool.not_eq_true, Bool.not_eq_true']
    intro hfalse
    have : (sortByKey (fun c => c.name)
        (cols₂.filter (fun c => !(cols₁.any (fun d => d.name == c.name))))).reverse.any
        (fun c => d.name == c.name) = true :=
      List.any_eq_true.mpr ⟨d, List.mem_reverse.mpr hd, by simp⟩
    rw [this] at hfalse
    cases hfalse
  rw [h₁, h₂, List.append_nil]

/-- Undoing the added indexes removes exactly the added tail. -/
theorem rev_filter_indexes (is₁ is₂ : List Index) :
    (is₁.filter (fun i => is₂.any (fun jj => idxEquiv i jj)) ++
        sortByKey (fun i => i.name)
          (is₂.filter (fun i => !(is₁.any (fun j => idxEquiv i j))))).filter
      (fun j =>
        !((sortByKey (fun i => i.name)
            (is₂.filter (fun i => !(is₁.any (fun j => idxEquiv i j))))).reverse.any
          (fun i => idxEquiv j i))) =
      is₁.filter (fun i => is₂.any (fun jj => idxEquiv i jj)) := by
  rw [List.filter_append]
  have h₁ : (is₁.filter (fun i => is₂.any (fun jj => idxEquiv i jj))).filter
      (fun j =>
        !((sortByKey (fun i => i.name)
            (is₂.filter (fun i => !(is₁.any (fun j => idxEquiv i j))))).reverse.any
          (fun i => idxEquiv j i))) =
      is₁.filter (fun i => is₂.any (fun jj => idxEquiv i jj)) := by
    apply List.filter_eq_self.mpr
    intro d hd
    rw [Bool.not_eq_true']
    apply List.any_eq_false.mpr
    intro x hx hdx
    have hxmem := List.mem_filter.mp ((mem_sortByKey _ _ _).mp (List.mem_reverse.mp hx))
    have hde : idxKey d = idxKey x := idxEquiv_eq.mp hdx
    have hdc : d ∈ is₁ := (List.mem_filter.mp hd).1
    have : is₁.any (fun j => idxEquiv x j) = true :=
      List.any_eq_true.mpr ⟨d, hdc, idxEquiv_eq.mpr hde.symm⟩
    rw [this] at hxmem
    simp at hxmem
  have h₂ : (sortByKey (fun i => i.name)
        (is₂.filter (fun i => !(is₁.any (fun j => idxEquiv i j))))).filter
      (fun j =>
        !((sortByKey (fun i => i.name)
            (is₂.filter (fun i => !(is₁.any (fun j => idxEquiv i j))))).reverse.any
          (fun i => idxEquiv j i))) = [] := by
    apply List.filter_eq_nil_iff.mpr
    intro d hd
    simp only [Bool.not_eq_true, Bool.not_eq_true']
    intro hfalse
    have : (sortByKey (fun i => i.name)
        (is₂.filter (fun i => !(is₁.any (fun j => idxEquiv i j))))).reverse.any
        (fun i => idxEquiv d i) = true :=
      List.any_eq_true.mpr ⟨d, List.mem_reverse.mpr hd, idxEquiv_refl d⟩
    rw [this] at hfalse
    cases hfalse
  rw [h₁, h₂, List.append_nil]

theorem applyLocal_filter_at (l : List Statement) (t : Table) (m : String) (hm : t.name = m) :
    applyLocal l t = applyLocal (l.filter (fun st => st.tableName == m)) t := by
  rw [applyLocal_filter_tableName l t, hm]

/-- Forward migration of one shared table: applying the pre and post
table-local phases of the forward script to the current-side table produces
exactly the closed-form result. -/
theorem applyLocal_fwd_master {A B : Schema} {q : Table × Table}
    (hq : q ∈ sharedPairs A B)
    (ndP : ((sharedPairs A B).map (fun p => p.2.name)).Nodup)
    (wf1 : Table.wf q.1 = true) (wf2 : Table.wf q.2 = true) :
    applyLocal (fwdPostStmts A B) (applyLocal (fwdPreStmts A B) q.1) = fwdTableResult q := by
  have hname : q.1.name = q.2.name := sharedPairs_name hq
  have hbeq : (q.1.name == q.2.name) = true := beq_iff_eq.mpr hname
  have hpre : (fwdPreStmts A B).filter (fun st => st.tableName == q.2.name) =
      (conDropOps q).map fwdStatement ++
        (idxDropOps q).map fwdStatement ++ (colDropOps q).map fwdStatement := by
    unfold fwdPreStmts
    rw [List.filter_append, List.filter_append,
      filter_phase_collapse fwdStatement conDropOps
        (fun p op hop => (conDropOps_props p op hop).2.1) ndP hq,
      filter_phase_collapse fwdStatement idxDropOps
        (fun p op hop => (idxDropOps_props p op hop).2.1) ndP hq,
      filter_phase_collapse fwdStatement colDropOps
        (fun p op hop => (colDropOps_props p op hop).2.1) ndP hq]
  have hpost : (fwdPostStmts A B).filter (fun st => st.tableName == q.2.name) =
      (colAddOps q).map fwdStatement ++
        (typeAlterOps q).map fwdStatement ++
        (nullAlterOps q).map fwdStatement ++
        (defAlterOps q).map fwdStatement ++
        (conAddOps q).map fwdStatement ++ (idxAddOps q).map fwdStatement := by
    unfold fwdPostStmts
    rw [List.filter_append, List.filter_append, List.filter_append, List.filter_append,
      List.filter_append,
      filter_phase_collapse fwdStatement colAddOps
        (fun p op hop => (colAddOps_props p op hop).2.1) ndP hq,
      filter_phase_collapse fwdStatement typeAlterOps
        (fun p op hop => (typeAlterOps_props p op hop).2.1) ndP hq,
      filter_phase_collapse fwdStatement nullAlterOps
        (fun p op hop => (nullAlterOps_props p op hop).2.1) ndP hq,
      filter_phase_collapse fwdStatement defAlterOps
        (fun p op hop => (defAlterOps_props p op hop).2.1) ndP hq,
      filter_phase_collapse fwdStatement conAddOps
        (fun p op hop => (conAddOps_props p op hop).2.1) ndP hq,
      filter_phase_collapse fwdStatement idxAddOps
        (fun p op hop => (idxAddOps_props p op hop).2.1) ndP hq]
  rw [applyLocal_filter_at (fwdPreStmts A B) q.1 q.2.name hname, hpre,
    applyLocal_append, applyLocal_append,
    conDropOps_map_fwd, idxDropOps_map_fwd, colDropOps_map_fwd,
    applyLocal_dropConstraints _ _ _ hbeq,
    applyLocal_dropIndexes _ _ _ (by exact hbeq),
    applyLocal_dropColumns _ _ _ (by exact hbeq)]
  dsimp only
  rw [applyLocal_filter_at (fwdPostStmts A B) _ q.2.name (by exact hname), hpost,
    applyLocal_append, applyLocal_append, applyLocal_append, applyLocal_append,
    applyLocal_append,
    colAddOps_map_fwd, applyLocal_addColumns _ _ _ (by exact hbeq)]
  dsimp only
  have hupd6 : ∀ st ∈ (typeAlterOps q).map fwdStatement,
      st.isColUpdate = true ∧ st.tableName = q.2.name := by
    intro st hst
    rcases List.mem_map.mp hst with ⟨op, hop, rfl⟩
    rcases typeAlterOps_shape q op hop with ⟨cn, o, nn, rfl⟩
    exact ⟨rfl, rfl⟩
  have hupd7 : ∀ st ∈ (nullAlterOps q).map fwdStatement,
      st.isColUpdate = true ∧ st.tableName = q.2.name := by
    intro st hst
    rcases List.mem_map.mp hst with ⟨op, hop, rfl⟩
    rcases nullAlterOps_shape q op hop with ⟨cn, o, nn, rfl⟩
    exact ⟨rfl, rfl⟩
  have hupd8 : ∀ st ∈ (defAlterOps q).map fwdStatement,
      st.isColUpdate = true ∧ st.tableName = q.2.name := by
    intro st hst
    rcases List.mem_map.mp hst with ⟨op, hop, rfl⟩
    rcases defAlterOps_shape q op hop with ⟨cn, o, nn, rfl⟩
    exact ⟨rfl, rfl⟩
  rw [applyLocal_colUpdates q.2.name _ hupd6 _ (by exact hname)]
  dsimp only
  rw [applyLocal_colUpdates q.2.name _ hupd7 _ (by exact hname)]
  dsimp only
  rw [applyLocal_colUpdates q.2.name _ hupd8 _ (by exact hname)]
  dsimp only
  rw [conAddOps_map_fwd, applyLocal_addConstraints _ _ _ (by exact hbeq)]
  dsimp only
  rw [idxAddOps_map_fwd, applyLocal_createIndexes _ _ _ (by exact hbeq)]
  dsimp only
  rw [List.map_map, List.map_map]
  unfold fwdTableResult
  rw [drop_filter_constraints, drop_filter_indexes, drop_filter_columns, List.map_append]
  have hkeepmap :
      (q.1.columns.filter (fun c => q.2.columns.any (fun dd => dd.name == c.name))).map
        ((colUpdFold ((defAlterOps q).map fwdStatement) ∘
          colUpdFold ((nullAlterOps q).map fwdStatement)) ∘
            colUpdFold ((typeAlterOps q).map fwdStatement)) =
      (q.1.columns.filter (fun c => q.2.columns.any (fun dd => dd.name == c.name))).map
        (updFrom q.2) := by
    apply List.map_congr_left
    intro c hcmem
    have hmem := List.mem_filter.mp hcmem
    show colUpdFold ((defAlterOps q).map fwdStatement)
        (colUpdFold ((nullAlterOps q).map fwdStatement)
          (colUpdFold ((typeAlterOps q).map fwdStatement) c)) = updFrom q.2 c
    rw [← colUpdFold_append ((typeAlterOps q).map fwdStatement)
        ((nullAlterOps q).map fwdStatement), ← colUpdFold_append]
    exact fwd_updates_kept q wf1 wf2 hmem.1 hmem.2
  have haddmap :
      (sortByKey (fun c => c.name)
          (q.2.columns.filter (fun c => !(q.1.columns.any (fun d => d.name == c.name))))).map
        ((colUpdFold ((defAlterOps q).map fwdStatement) ∘
          colUpdFold ((nullAlterOps q).map fwdStatement)) ∘
            colUpdFold ((typeAlterOps q).map fwdStatement)) =
      sortByKey (fun c => c.name)
        (q.2.columns.filter (fun c => !(q.1.columns.any (fun d => d.name == c.name)))) := by
    have h1 : ∀ c ∈ sortByKey (fun c => c.name)
        (q.2.columns.filter (fun c => !(q.1.columns.any (fun d => d.name == c.name)))),
        ((colUpdFold ((defAlterOps q).map fwdStatement) ∘
          colUpdFold ((nullAlterOps q).map fwdStatement)) ∘
            colUpdFold ((typeAlterOps q).map fwdStatement)) c = (fun c => c) c := by
      intro c hcmem
      have hmem := List.mem_filter.mp ((mem_sortByKey _ _ _).mp hcmem)
      have hnot : q.1.columns.any (fun d => d.name == c.name) = false := by
        rw [← Bool.not_eq_true']
        exact hmem.2
      show colUpdFold ((defAlterOps q).map fwdStatement)
          (colUpdFold ((nullAlterOps q).map fwdStatement)
            (colUpdFold ((typeAlterOps q).map fwdStatement) c)) = c
      rw [← colUpdFold_append ((typeAlterOps q).map fwdStatement)
          ((nullAlterOps q).map fwdStatement), ← colUpdFold_append]
      exact fwd_updates_added q hnot
    rw [List.map_congr_left h1, List.map_id']
  rw [hkeepmap, haddmap]

/-- Reverse migration of one shared table: applying the pre and post
table-local phases of the reverse script to the forward result restores
exactly the closed-form reverse result. -/
theorem applyLocal_rev_master {A B : Schema} {q : Table × Table}
    (hq : q ∈ sharedPairs A B)
    (ndP : ((sharedPairs A B).map (fun p => p.2.name)).Nodup)
    (wf1 : Table.wf q.1 = true) (wf2 : Table.wf q.2 = true) :
    applyLocal (revPostStmts A B) (applyLocal (revPreStmts A B) (fwdTableResult q)) =
      revTableResult q := by
  have hname : q.1.name = q.2.name := sharedPairs_name hq
  have hbeq : (q.1.name == q.2.name) = true := beq_iff_eq.mpr hname
  have hpreR : (revPreStmts A B).filter (fun st => st.tableName == q.2.name) =
      ((idxAddOps q).map revStatement).reverse ++
        ((conAddOps q).map revStatement).reverse ++
        ((defAlterOps q).map revStatement).reverse ++
        ((nullAlterOps q).map revStatement).reverse ++
        ((typeAlterOps q).map revStatement).reverse ++
        ((colAddOps q).map revStatement).reverse := by
    unfold revPreStmts
    rw [List.filter_append, List.filter_append, List.filter_append, List.filter_append,
      List.filter_append,
      filter_phase_collapse_rev revStatement idxAddOps
        (fun p op hop => (idxAddOps_props p op hop).2.2.2) ndP hq,
      filter_phase_collapse_rev revStatement conAddOps
        (fun p op hop => (conAddOps_props p op hop).2.2.2) ndP hq,
      filter_phase_collapse_rev revStatement defAlterOps
        (fun p op hop => (defAlterOps_props p op hop).2.2.2) ndP hq,
      filter_phase_collapse_rev revStatement nullAlterOps
        (fun p op hop => (nullAlterOps_props p op hop).2.2.2) ndP hq,
      filter_phase_collapse_rev revStatement typeAlterOps
        (fun p op hop => (typeAlterOps_props p op hop).2.2.2) ndP hq,
      filter_phase_collapse_rev revStatement colAddOps
        (fun p op hop => (colAddOps_props p op hop).2.2.2) ndP hq]
  have hpostR : (revPostStmts A B).filter (fun st => st.tableName == q.2.name) =
      ((colDropOps q).map revStatement).reverse ++
        ((idxDropOps q).map revStatement).reverse ++
        ((conDropOps q).map revStatement).reverse := by
    unfold revPostStmts
    rw [List.filter_append, List.filter_append,
      filter_phase_collapse_rev revStatement colDropOps
        (fun p op hop => (colDropOps_props p op hop).2.2.2) ndP hq,
      filter_phase_collapse_rev revStatement idxDropOps
        (fun p op hop => (idxDropOps_props p op hop).2.2.2) ndP hq,
      filter_phase_collapse_rev revStatement conDropOps
        (fun p op hop => (conDropOps_props p op hop).2.2.2) ndP hq]
  rw [applyLocal_filter_at (revPreStmts A B) (fwdTableResult q) q.2.name (by exact hname),
    hpreR,
    applyLocal_append, applyLocal_append, applyLocal_append, applyLocal_append,
    applyLocal_append,
    idxAddOps_map_rev,
    ← List.map_reverse (fun i => Statement.dropIndex q.2.name i),
    applyLocal_dropIndexes _ _ _ (by exact hbeq),
    conAddOps_map_rev,
    ← List.map_reverse (fun c => Statement.dropConstraint q.2.name c),
    applyLocal_dropConstraints _ _ _ (by exact hbeq)]
  dsimp only
  have hupd8 : ∀ st ∈ ((defAlterOps q).map revStatement).reverse,
      st.isColUpdate = true ∧ st.tableName = q.2.name := by
    intro st hst
    rw [List.mem_reverse] at hst
    rcases List.mem_map.mp hst with ⟨op, hop, rfl⟩
    rcases defAlterOps_shape q op hop with ⟨cn, o, nn, rfl⟩
    exact ⟨rfl, rfl⟩
  have hupd7 : ∀ st ∈ ((nullAlterOps q).map revStatement).reverse,
      st.isColUpdate = true ∧ st.tableName = q.2.name := by
    intro st hst
    rw [List.mem_reverse] at hst
    rcases List.mem_map.mp hst with ⟨op, hop, rfl⟩
    rcases nullAlterOps_shape q op hop with ⟨cn, o, nn, rfl⟩
    exact ⟨rfl, rfl⟩
  have hupd6 : ∀ st ∈ ((typeAlterOps q).map revStatement).reverse,
      st.isColUpdate = true ∧ st.tableName = q.2.name := by
    intro st hst
    rw [List.mem_reverse] at hst
    rcases List.mem_map.mp hst with ⟨op, hop, rfl⟩
    rcases typeAlterOps_shape q op hop with ⟨cn, o, nn, rfl⟩
    exact ⟨rfl, rfl⟩
  rw [applyLocal_colUpdates q.2.name _ hupd8 _ (by exact hname)]
  dsimp only
  rw [applyLocal_colUpdates q.2.name _ hupd7 _ (by exact hname)]
  dsimp only
  rw [applyLocal_colUpdates q.2.name _ hupd6 _ (by exact hname)]
  dsimp only
  rw [colAddOps_map_rev,
    ← List.map_reverse (fun c : Column => Statement.dropColumn q.2.name c.name),
    applyLocal_dropColumns _ _ _ (by exact hbeq)]
  dsimp only
  rw [applyLocal_filter_at (revPostStmts A B) _ q.2.name (by exact hname), hpostR,
    applyLocal_append, applyLocal_append,
    colDropOps_map_rev,
    ← List.map_reverse (fun c => Statement.addColumn q.2.name c),
    applyLocal_addColumns _ _ _ (by exact hbeq)]
  dsimp only
  rw [idxDropOps_map_rev,
    ← List.map_reverse (fun i => Statement.createIndex q.2.name i),
    applyLocal_createIndexes _ _ _ (by exact hbeq)]
  dsimp only
  rw [conDropOps_map_rev,
    ← List.map_reverse (fun c => Statement.addConstraint q.2.name c),
    applyLocal_addConstraints _ _ _ (by exact hbeq)]
  dsimp only
  rw [List.map_map, List.map_map]
  unfold fwdTableResult revTableResult
  dsimp only
  rw [List.map_append]
  have hkeeprev :
      ((q.1.columns.filter (fun c => q.2.columns.any (fun dd => dd.name == c.name))).map
          (updFrom q.2)).map
        ((colUpdFold (((typeAlterOps q).map revStatement).reverse) ∘
          colUpdFold (((nullAlterOps q).map revStatement).reverse)) ∘
            colUpdFold (((defAlterOps q).map revStatement).reverse)) =
      q.1.columns.filter (fun c => q.2.columns.any (fun dd => dd.name == c.name)) := by
    rw [List.map_map]
    have h1 : ∀ c ∈ q.1.columns.filter (fun c => q.2.columns.any (fun dd => dd.name == c.name)),
        (((colUpdFold (((typeAlterOps q).map revStatement).reverse) ∘
          colUpdFold (((nullAlterOps q).map revStatement).reverse)) ∘
            colUpdFold (((defAlterOps q).map revStatement).reverse)) ∘ updFrom q.2) c =
          (fun c => c) c := by
      intro c hcmem
      have hmem := List.mem_filter.mp hcmem
      show colUpdFold (((typeAlterOps q).map revStatement).reverse)
          (colUpdFold (((nullAlterOps q).map revStatement).reverse)
            (colUpdFold (((defAlterOps q).map revStatement).reverse) (updFrom q.2 c))) = c
      rw [← colUpdFold_append (((defAlterOps q).map revStatement).reverse)
          (((nullAlterOps q).map revStatement).reverse), ← colUpdFold_append]
      exact rev_updates_kept q wf1 wf2 hmem.1 hmem.2
    rw [List.map_congr_left h1, List.map_id']
  have haddrev :
      (sortByKey (fun c => c.name)
          (q.2.columns.filter (fun c => !(q.1.columns.any (fun d => d.name == c.name))))).map
        ((colUpdFold (((typeAlterOps q).map revStatement).reverse) ∘
          colUpdFold (((nullAlterOps q).map revStatement).reverse)) ∘
            colUpdFold (((defAlterOps q).map revStatement).reverse)) =
      sortByKey (fun c => c.name)
        (q.2.columns.filter (fun c => !(q.1.columns.any (fun d => d.name == c.name)))) := by
    have h1 : ∀ c ∈ sortByKey (fun c => c.name)
        (q.2.columns.filter (fun c => !(q.1.columns.any (fun d => d.name == c.name)))),
        ((colUpdFold (((typeAlterOps q).map revStatement).reverse) ∘
          colUpdFold (((nullAlterOps q).map revStatement).reverse)) ∘
            colUpdFold (((defAlterOps q).map revStatement).reverse)) c = (fun c => c) c := by
      intro c hcmem
      have hmem := List.mem_filter.mp ((mem_sortByKey _ _ _).mp hcmem)
      have hnot : q.1.columns.any (fun d => d.name == c.name) = false := by
        rw [← Bool.not_eq_true']
        exact hmem.2
      show colUpdFold (((typeAlterOps q).map revStatement).reverse)
          (colUpdFold (((nullAlterOps q).map revStatement).reverse)
            (colUpdFold (((defAlterOps q).map revStatement).reverse) c)) = c
      rw [← colUpdFold_append (((defAlterOps q).map revStatement).reverse)
          (((nullAlterOps q).map revStatement).reverse), ← colUpdFold_append]
      exact rev_updates_added q hnot
    rw [List.map_congr_left h1, List.map_id']
  rw [hkeeprev, haddrev, rev_filter_columns, rev_filter_constraints, rev_filter_indexes]

/-- All nine per-table diff generators vanish on a pair of tables whose
constraints, indexes and columns mutually cover each other, with matched
columns agreeing on every attribute. -/
theorem tablePair_ops_nil (p : Table × Table)
    (hc1 : ∀ c ∈ p.1.constraints, p.2.constraints.contains c = true)
    (hc2 : ∀ c ∈ p.2.constraints, p.1.constraints.contains c = true)
    (hi1 : ∀ i ∈ p.1.indexes, p.2.indexes.any (fun j => idxEquiv i j) = true)
    (hi2 : ∀ i ∈ p.2.indexes, p.1.indexes.any (fun j => idxEquiv i j) = true)
    (hcol1 : ∀ c ∈ p.1.columns, p.2.columns.any (fun d => d.name == c.name) = true)
    (hcol2 : ∀ cb ∈ p.2.columns, ∃ ca,
      p.1.columns.find? (fun d => d.name == cb.name) = some ca ∧
      ca.ctype = cb.ctype ∧ ca.nullable = cb.nullable ∧ ca.defaultExpr = cb.defaultExpr) :
    conDropOps p = [] ∧ conAddOps p = [] ∧
    idxDropOps p = [] ∧ idxAddOps p = [] ∧
    colDropOps p = [] ∧ colAddOps p = [] ∧
    typeAlterOps p = [] ∧ nullAlterOps p = [] ∧ defAlterOps p = [] := by
  refine ⟨?_, ?_, ?_, ?_, ?_, ?_, ?_, ?_, ?_⟩
  · unfold conDropOps
    have h : p.1.constraints.filter (fun c => !(p.2.constraints.contains c)) = [] :=
      List.filter_eq_nil_iff.mpr (fun c hc => by
        have h' := hc1 c hc
        simp at h' ⊢
        exact h')
    rw [h]
    rfl
  · unfold conAddOps
    have h : p.2.constraints.filter (fun c => !(p.1.constraints.contains c)) = [] :=
      List.filter_eq_nil_iff.mpr (fun c hc => by
        have h' := hc2 c hc
        simp at h' ⊢
        exact h')
    rw [h]
    rfl
  · unfold idxDropOps
    have h : p.1.indexes.filter (fun i => !(p.2.indexes.any (fun j => idxEquiv i j))) = [] :=
      List.filter_eq_nil_iff.mpr (fun i hi => by simp [hi1 i hi])
    rw [h]
    rfl
  · unfold idxAddOps
    have h : p.2.indexes.filter (fun i => !(p.1.indexes.any (fun j => idxEquiv i j))) = [] :=
      List.filter_eq_nil_iff.mpr (fun i hi => by simp [hi2 i hi])
    rw [h]
    rfl
  · unfold colDropOps
    have h : p.1.columns.filter (fun c => !(p.2.columns.any (fun d => d.name == c.name))) = [] :=
      List.filter_eq_nil_iff.mpr (fun c hc => by simp [hcol1 c hc])
    rw [h]
    rfl
  · unfold colAddOps
    have h : p.2.columns.filter (fun c => !(p.1.columns.any (fun d => d.name == c.name))) = [] := by
      apply List.filter_eq_nil_iff.mpr
      intro c hc
      obtain ⟨ca, hfind, _, _, _⟩ := hcol2 c hc
      have hmem := List.mem_of_find?_eq_some hfind
      have hpred := @List.find?_some Column (fun d => d.name == c.name) ca p.1.columns hfind
      have : p.1.columns.any (fun d => d.name == c.name) = true :=
        List.any_eq_true.mpr ⟨ca, hmem, hpred⟩
      simp [this]
    rw [h]
    rfl
  · unfold typeAlterOps
    apply List.filterMap_eq_nil_iff.mpr
    intro cb hcb
    obtain ⟨ca, hfind, h1, _, _⟩ := hcol2 cb ((mem_sortByKey _ _ _).mp hcb)
    show (match p.1.columns.find? (fun d => d.name == cb.name) with
      | some ca =>
        if ca.ctype ≠ cb.ctype then
          some (ChangeOp.alterColumnType p.2.name cb.name ca.ctype cb.ctype)
        else none
      | none => none) = none
    rw [hfind]
    simp [h1]
  · unfold nullAlterOps
    apply List.filterMap_eq_nil_iff.mpr
    intro cb hcb
    obtain ⟨ca, hfind, _, h2, _⟩ := hcol2 cb ((mem_sortByKey _ _ _).mp hcb)
    show (match p.1.columns.find? (fun d => d.name == cb.name) with
      | some ca =>
        if ca.nullable ≠ cb.nullable then
          some (ChangeOp.alterColumnNullability p.2.name cb.name ca.nullable cb.nullable)
        else none
      | none => none) = none
    rw [hfind]
    simp [h2]
  · unfold defAlterOps
    apply List.filterMap_eq_nil_iff.mpr
    intro cb hcb
    obtain ⟨ca, hfind, _, _, h3⟩ := hcol2 cb ((mem_sortByKey _ _ _).mp hcb)
    show (match p.1.columns.find? (fun d => d.name == cb.name) with
      | some ca =>
        if ca.defaultExpr ≠ cb.defaultExpr then
          some (ChangeOp.alterColumnDefault p.2.name cb.name ca.defaultExpr cb.defaultExpr)
        else none
      | none => none) = none
    rw [hfind]
    simp [h3]

/-- The diff of two schemas is empty as soon as no table is dropped, no table
is created, and every per-table generator vanishes on every shared pair. -/
theorem diff_eq_nil (X Y : Schema)
    (hdrop : X.filter (fun t => !(hasTable Y t.name)) = [])
    (hcreate : Y.filter (fun t => !(hasTable X t.name)) = [])
    (hpairs : ∀ p ∈ sharedPairs X Y,
      conDropOps p = [] ∧ conAddOps p = [] ∧
      idxDropOps p = [] ∧ idxAddOps p = [] ∧
      colDropOps p = [] ∧ colAddOps p = [] ∧
      typeAlterOps p = [] ∧ nullAlterOps p = [] ∧ defAlterOps p = []) :
    diff X Y = [] := by
  unfold diff droppedTables createdTables
  rw [hdrop, hcreate,
    List.flatMap_eq_nil_iff.mpr (fun p hp => (hpairs p hp).1),
    List.flatMap_eq_nil_iff.mpr (fun p hp => (hpairs p hp).2.2.1),
    List.flatMap_eq_nil_iff.mpr (fun p hp => (hpairs p hp).2.2.2.2.1),
    List.flatMap_eq_nil_iff.mpr (fun p hp => (hpairs p hp).2.2.2.2.2.1),
    List.flatMap_eq_nil_iff.mpr (fun p hp => (hpairs p hp).2.2.2.2.2.2.1),
    List.flatMap_eq_nil_iff.mpr (fun p hp => (hpairs p hp).2.2.2.2.2.2.2.1),
    List.flatMap_eq_nil_iff.mpr (fun p hp => (hpairs p hp).2.2.2.2.2.2.2.2),
    List.flatMap_eq_nil_iff.mpr (fun p hp => (hpairs p hp).2.1),
    List.flatMap_eq_nil_iff.mpr (fun p hp => (hpairs p hp).2.2.2.1)]
  rfl

/-- The forward result of a shared table diffs to nothing against the desired
side. -/
theorem fwd_pair_nil (q : Table × Table)
    (wf1 : Table.wf q.1 = true) (wf2 : Table.wf q.2 = true) :
    conDropOps (fwdTableResult q, q.2) = [] ∧ conAddOps (fwdTableResult q, q.2) = [] ∧
    idxDropOps (fwdTableResult q, q.2) = [] ∧ idxAddOps (fwdTableResult q, q.2) = [] ∧
    colDropOps (fwdTableResult q, q.2) = [] ∧ colAddOps (fwdTableResult q, q.2) = [] ∧
    typeAlterOps (fwdTableResult q, q.2) = [] ∧ nullAlterOps (fwdTableResult q, q.2) = [] ∧
    defAlterOps (fwdTableResult q, q.2) = [] := by
  have nd1 : (q.1.columns.map (fun c => c.name)).Nodup := by
    simpa [Table.wf] using wf1
  have nd2 : (q.2.columns.map (fun c => c.name)).Nodup := by
    simpa [Table.wf] using wf2
  have ndF : ((fwdTableResult q).columns.map (fun c => c.name)).Nodup := by
    show ((((q.1.columns.filter
        (fun c => q.2.columns.any (fun d => d.name == c.name))).map (updFrom q.2)) ++
        sortByKey (fun c => c.name)
          (q.2.columns.filter
            (fun c => !(q.1.columns.any (fun d => d.name == c.name))))).map
      (fun c => c.name)).Nodup
    rw [List.map_append, List.map_map]
    have hmapeq : (q.1.columns.filter (fun c => q.2.columns.any (fun d => d.name == c.name))).map
        ((fun c => c.name) ∘ updFrom q.2) =
        (q.1.columns.filter (fun c => q.2.columns.any (fun d => d.name == c.name))).map
          (fun c => c.name) :=
      List.map_congr_left (fun c _ => updFrom_name q.2 c)
    rw [hmapeq]
    apply List.Nodup.append
    · exact ((List.filter_sublist q.1.columns).map (fun c => c.name)).nodup nd1
    · exact (((perm_sortByKey (fun c : Column => c.name) _).map (fun c => c.name)).nodup_iff).mpr
        (((List.filter_sublist q.2.columns).map (fun c => c.name)).nodup nd2)
    · intro n hn1 hn2
      rcases List.mem_map.mp hn1 with ⟨c, hcmem, rfl⟩
      rcases List.mem_map.mp hn2 with ⟨c', hcmem', hcc⟩
      have hc1A : c ∈ q.1.columns := (List.mem_filter.mp hcmem).1
      have hcmem'' := List.mem_filter.mp ((mem_sortByKey _ _ _).mp hcmem')
      have : q.1.columns.any (fun d => d.name == c'.name) = true :=
        List.any_eq_true.mpr ⟨c, hc1A, by simp [hcc]⟩
      rw [this] at hcmem''
      simp at hcmem''
  apply tablePair_ops_nil (fwdTableResult q, q.2)
  · intro c hc
    rcases List.mem_append.mp hc with hc' | hc'
    · exact (List.mem_filter.mp hc').2
    · have := (List.mem_filter.mp ((mem_sortByKey _ _ _).mp hc')).1
      simpa using this
  · intro c hc
    cases h : q.1.constraints.contains c with
    | true =>
      have hmem : c ∈ q.1.constraints := by simpa using h
      have : c ∈ (fwdTableResult q).constraints :=
        List.mem_append.mpr (Or.inl (List.mem_filter.mpr ⟨hmem, by simpa using hc⟩))
      simpa using this
    | false =>
      have : c ∈ (fwdTableResult q).constraints :=
        List.mem_append.mpr (Or.inr ((mem_sortByKey _ _ _).mpr
          (List.mem_filter.mpr ⟨hc, by simpa using h⟩)))
      simpa using this
  · intro i hi
    rcases List.mem_append.mp hi with hi' | hi'
    · exact (List.mem_filter.mp hi').2
    · have := (List.mem_filter.mp ((mem_sortByKey _ _ _).mp hi')).1
      exact List.any_eq_true.mpr ⟨i, this, idxEquiv_refl i⟩
  · intro i hi
    cases h : q.1.indexes.any (fun j => idxEquiv i j) with
    | true =>
      obtain ⟨j, hj, hij⟩ := List.any_eq_true.mp h
      have hjkept : j ∈ (fwdTableResult q).indexes :=
        List.mem_append.mpr (Or.inl (List.mem_filter.mpr ⟨hj,
          List.any_eq_true.mpr ⟨i, hi, idxEquiv_eq.mpr (idxEquiv_eq.mp hij).symm⟩⟩))
      exact List.any_eq_true.mpr ⟨j, hjkept, hij⟩
    | false =>
      have hiadd : i ∈ (fwdTableResult q).indexes :=
        List.mem_append.mpr (Or.inr ((mem_sortByKey _ _ _).mpr
          (List.mem_filter.mpr ⟨hi, by simp [h]⟩)))
      exact List.any_eq_true.mpr ⟨i, hiadd, idxEquiv_refl i⟩
  · intro c hc
    rcases List.mem_append.mp hc with hc' | hc'
    · rcases List.mem_map.mp hc' with ⟨c₀, hc₀, rfl⟩
      have hpred := (List.mem_filter.mp hc₀).2
      rw [updFrom_name]
      exact hpred
    · have := (List.mem_filter.mp ((mem_sortByKey _ _ _).mp hc')).1
      exact List.any_eq_true.mpr ⟨c, this, by simp⟩
  · intro cb hcb
    cases h : q.1.columns.any (fun d => d.name == cb.name) with
    | true =>
      obtain ⟨c₀, hc₀, hbeq⟩ := List.any_eq_true.mp h
      have hc₀name : c₀.name = cb.name := beq_iff_eq.mp hbeq
      have hfind2 : q.2.columns.find? (fun d => d.name == c₀.name) = some cb :=
        find?_name_unique nd2 hcb hc₀name.symm
      have hcav : updFrom q.2 c₀ =
          { c₀ with ctype := cb.ctype, nullable := cb.nullable, defaultExpr := cb.defaultExpr } := by
        unfold updFrom
        rw [hfind2]
      have hmemF : updFrom q.2 c₀ ∈ (fwdTableResult q).columns :=
        List.mem_append.mpr (Or.inl (List.mem_map_of_mem (updFrom q.2)
          (List.mem_filter.mpr ⟨hc₀,
            List.any_eq_true.mpr ⟨cb, hcb, by simp [hc₀name]⟩⟩)))
      refine ⟨updFrom q.2 c₀, ?_, ?_, ?_, ?_⟩
      · exact find?_name_unique ndF hmemF (by rw [updFrom_name]; exact hc₀name)
      · rw [hcav]
      · rw [hcav]
      · rw [hcav]
    | false =>
      have hmemF : cb ∈ (fwdTableResult q).columns :=
        List.mem_append.mpr (Or.inr ((mem_sortByKey _ _ _).mpr
          (List.mem_filter.mpr ⟨hcb, by simp [h]⟩)))
      exact ⟨cb, find?_name_unique ndF hmemF rfl, rfl, rfl, rfl⟩

/-- The reverse result of a shared table diffs to nothing against the original
current side. -/
theorem rev_pair_nil (q : Table × Table) (wf1 : Table.wf q.1 = true) :
    conDropOps (revTableResult q, q.1) = [] ∧ conAddOps (revTableResult q, q.1) = [] ∧
    idxDropOps (revTableResult q, q.1) = [] ∧ idxAddOps (revTableResult q, q.1) = [] ∧
    colDropOps (revTableResult q, q.1) = [] ∧ colAddOps (revTableResult q, q.1) = [] ∧
    typeAlterOps (revTableResult q, q.1) = [] ∧ nullAlterOps (revTableResult q, q.1) = [] ∧
    defAlterOps (revTableResult q, q.1) = [] := by
  have nd1 : (q.1.columns.map (fun c => c.name)).Nodup := by
    simpa [Table.wf] using wf1
  have permCols : (revTableResult q).columns.Perm q.1.columns := by
    show (q.1.columns.filter (fun c => q.2.columns.any (fun d => d.name == c.name)) ++
      (sortByKey (fun c => c.name)
        (q.1.columns.filter
          (fun c => !(q.2.columns.any (fun d => d.name == c.name))))).reverse).Perm q.1.columns
    exact (((List.reverse_perm _).trans (perm_sortByKey _ _)).append_left _).trans
      (List.filter_append_perm _ q.1.columns)
  have permCons : (revTableResult q).constraints.Perm q.1.constraints := by
    show (q.1.constraints.filter (fun c => q.2.constraints.contains c) ++
      (sortByKey renderConstraint
        (q.1.constraints.filter (fun c => !(q.2.constraints.contains c)))).reverse).Perm
      q.1.constraints
    exact (((List.reverse_perm _).trans (perm_sortByKey _ _)).append_left _).trans
      (List.filter_append_perm _ q.1.constraints)
  have permIdx : (revTableResult q).indexes.Perm q.1.indexes := by
    show (q.1.indexes.filter (fun i => q.2.indexes.any (fun j => idxEquiv i j)) ++
      (sortByKey (fun i => i.name)
        (q.1.indexes.filter
          (fun i => !(q.2.indexes.any (fun j => idxEquiv i j))))).reverse).Perm q.1.indexes
    exact (((List.reverse_perm _).trans (perm_sortByKey _ _)).append_left _).trans
      (List.filter_append_perm _ q.1.indexes)
  have ndR : ((revTableResult q).columns.map (fun c => c.name)).Nodup :=
    ((permCols.map (fun c => c.name)).nodup_iff).mpr nd1
  apply tablePair_ops_nil (revTableResult q, q.1)
  · intro c hc
    have : c ∈ q.1.constraints := permCons.mem_iff.mp hc
    simpa using this
  · intro c hc
    have : c ∈ (revTableResult q).constraints := permCons.mem_iff.mpr hc
    simpa using this
  · intro i hi
    exact List.any_eq_true.mpr ⟨i, permIdx.mem_iff.mp hi, idxEquiv_refl i⟩
  · intro i hi
    exact List.any_eq_true.mpr ⟨i, permIdx.mem_iff.mpr hi, idxEquiv_refl i⟩
  · intro c hc
    exact List.any_eq_true.mpr ⟨c, permCols.mem_iff.mp hc, by simp⟩
  · intro cb hcb
    exact ⟨cb, find?_name_unique ndR (permCols.mem_iff.mpr hcb) rfl, rfl, rfl, rfl⟩

/-- Applying the synthesized forward script to the current schema produces the
closed-form forward migration of the whole schema. -/
theorem applyStatements_fwd (A B : Schema)
    (hA : Schema.wf A = true) (hB : Schema.wf B = true) :
    applyStatements A (synthesize (diff A B)).1 = fwdApplied A B := by
  obtain ⟨ndA, wfA⟩ := Schema.wf_iff.mp hA
  obtain ⟨ndB, wfB⟩ := Schema.wf_iff.mp hB
  have ndP : ((sharedPairs A B).map (fun p => p.2.name)).Nodup := sharedPairs_names_nodup ndB
  have hprops := phase_stmts_props A B
  rw [fwd_decomp, applyStatements_phased A (fwdPreStmts A B) (fwdPostStmts A B)
      (droppedTables A B) (createdTables A B)
      (fun st hst => (hprops (fwdPreStmts A B) (by simp) st hst).1)
      (fun st hst => (hprops (fwdPostStmts A B) (by simp) st hst).1)]
  have hfg : (A.map (applyLocal (fwdPreStmts A B))).filter
      (fun u => !((droppedTables A B).any (fun t => u.name == t.name))) =
      (A.filter (fun u => hasTable B u.name)).map (applyLocal (fwdPreStmts A B)) := by
    rw [List.filter_map]
    congr 1
    apply List.filter_congr
    intro u huA
    show (!((droppedTables A B).any
        (fun t => (applyLocal (fwdPreStmts A B) u).name == t.name))) = hasTable B u.name
    rw [applyLocal_name]
    have hany : (droppedTables A B).any (fun t => u.name == t.name) =
        (A.filter (fun t => !(hasTable B t.name))).any (fun t => u.name == t.name) :=
      any_congr_of_perm (perm_sortByKey _ _) _
    rw [hany]
    cases hB' : hasTable B u.name with
    | true =>
      have : (A.filter (fun t => !(hasTable B t.name))).any (fun t => u.name == t.name) =
          false := by
        apply List.any_eq_false.mpr
        intro t ht hbeq
        have hpred := (List.mem_filter.mp ht).2
        have hne : u.name = t.name := beq_iff_eq.mp hbeq
        rw [← hne, hB'] at hpred
        simp at hpred
      rw [this]
      rfl
    | false =>
      have : (A.filter (fun t => !(hasTable B t.name))).any (fun t => u.name == t.name) =
          true :=
        List.any_eq_true.mpr ⟨u, List.mem_filter.mpr ⟨huA, by simp [hB']⟩, by simp⟩
      rw [this]
      rfl
  rw [hfg, List.map_append, List.map_map]
  unfold fwdApplied
  congr 1
  · apply List.map_congr_left
    intro u hu
    have hu' := List.mem_filter.mp hu
    obtain ⟨tb, htbB, hbeq⟩ := List.any_eq_true.mp hu'.2
    have hname : tb.name = u.name := beq_iff_eq.mp hbeq
    have hfindB : findTable B u.name = some tb := by
      have h := findTable_self ndB htbB
      rw [hname] at h
      exact h
    have hfindA : findTable A tb.name = some u := by
      rw [hname]
      exact findTable_self ndA hu'.1
    have hqmem : (u, tb) ∈ sharedPairs A B := sharedPairs_complete htbB hfindA
    show applyLocal (fwdPostStmts A B) (applyLocal (fwdPreStmts A B) u) =
      fwdTableResult (u, (findTable B u.name).getD u)
    rw [hfindB]
    exact applyLocal_fwd_master hqmem ndP (wfA u hu'.1) (wfB tb htbB)
  · have hskip : ∀ ct ∈ createdTables A B, applyLocal (fwdPostStmts A B) ct = ct := by
      intro ct hct
      apply applyLocal_skip_all
      intro st hst
      obtain ⟨_, p, hp, hstname⟩ := hprops (fwdPostStmts A B) (by simp) st hst
      rw [hstname]
      have hpA : p.2.name ∈ A.map (fun t => t.name) := sharedPairs_name_mem_A hp
      have hctB := List.mem_filter.mp ((mem_sortByKey _ _ _).mp hct)
      have hctA : hasTable A ct.name = false := by
        have h := hctB.2
        rw [Bool.not_eq_true'] at h
        exact h
      intro heq
      rcases List.mem_map.mp hpA with ⟨t, htA, htname⟩
      have : hasTable A ct.name = true :=
        List.any_eq_true.mpr ⟨t, htA, by simp [htname, heq]⟩
      rw [hctA] at this
      cases this
    rw [List.map_congr_left hskip, List.map_id']

/-- Applying the synthesized reverse script to the forward-migrated schema
produces the closed-form reverse migration of the whole schema. -/
theorem applyStatements_rev (A B : Schema)
    (hA : Schema.wf A = true) (hB : Schema.wf B = true) :
    applyStatements (fwdApplied A B) (synthesize (diff A B)).2 = revApplied A B := by
  obtain ⟨ndA, wfA⟩ := Schema.wf_iff.mp hA
  obtain ⟨ndB, wfB⟩ := Schema.wf_iff.mp hB
  have ndP : ((sharedPairs A B).map (fun p => p.2.name)).Nodup := sharedPairs_names_nodup ndB
  have hprops := phase_stmts_props A B
  rw [rev_decomp, applyStatements_phased (fwdApplied A B) (revPreStmts A B) (revPostStmts A B)
      ((createdTables A B).reverse) ((droppedTables A B).reverse)
      (fun st hst => (hprops (revPreStmts A B) (by simp) st hst).1)
      (fun st hst => (hprops (revPostStmts A B) (by simp) st hst).1)]
  have hcreatedany : ∀ n, n ∈ A.map (fun t => t.name) →
      (createdTables A B).reverse.any (fun t => n == t.name) = false := by
    intro n hn
    apply List.any_eq_false.mpr
    intro t ht hbeq
    have htmem := List.mem_filter.mp ((mem_sortByKey _ _ _).mp (List.mem_reverse.mp ht))
    have hne : n = t.name := beq_iff_eq.mp hbeq
    rcases List.mem_map.mp hn with ⟨w, hwA, hwname⟩
    have hhas : hasTable A t.name = true :=
      List.any_eq_true.mpr ⟨w, hwA, by simp [hwname, hne]⟩
    have h2 := htmem.2
    rw [hhas] at h2
    simp at h2
  unfold fwdApplied
  rw [List.map_append (applyLocal (revPreStmts A B)), List.filter_append]
  have h1 : (createdTables A B).map (applyLocal (revPreStmts A B)) = createdTables A B := by
    have hskip : ∀ ct ∈ createdTables A B, applyLocal (revPreStmts A B) ct = ct := by
      intro ct hct
      apply applyLocal_skip_all
      intro st hst
      obtain ⟨_, p, hp, hstname⟩ := hprops (revPreStmts A B) (by simp) st hst
      rw [hstname]
      have hpA : p.2.name ∈ A.map (fun t => t.name) := sharedPairs_name_mem_A hp
      have hctB := List.mem_filter.mp ((mem_sortByKey _ _ _).mp hct)
      have hctA : hasTable A ct.name = false := by
        have h := hctB.2
        rw [Bool.not_eq_true'] at h
        exact h
      intro heq
      rcases List.mem_map.mp hpA with ⟨t, htA, htname⟩
      have : hasTable A ct.name = true :=
        List.any_eq_true.mpr ⟨t, htA, by simp [htname, heq]⟩
      rw [hctA] at this
      cases this
    rw [List.map_congr_left hskip, List.map_id']
  rw [h1]
  have h2 : (createdTables A B).filter
      (fun u => !((createdTables A B).reverse.any (fun t => u.name == t.name))) = [] := by
    apply List.filter_eq_nil_iff.mpr
    intro ct hct
    have : (createdTables A B).reverse.any (fun t => ct.name == t.name) = true :=
      List.any_eq_true.mpr ⟨ct, List.mem_reverse.mpr hct, by simp⟩
    simp [this]
  rw [h2, List.append_nil]
  have h3 : (((A.filter (fun u => hasTable B u.name)).map
        (fun u => fwdTableResult (u, (findTable B u.name).getD u))).map
          (applyLocal (revPreStmts A B))).filter
      (fun u => !((createdTables A B).reverse.any (fun t => u.name == t.name))) =
      ((A.filter (fun u => hasTable B u.name)).map
        (fun u => fwdTableResult (u, (findTable B u.name).getD u))).map
          (applyLocal (revPreStmts A B)) := by
    apply List.filter_eq_self.mpr
    intro x hx
    rcases List.mem_map.mp hx with ⟨y, hy, rfl⟩
    rcases List.mem_map.mp hy with ⟨u, hu, rfl⟩
    have hnd : (applyLocal (revPreStmts A B)
        (fwdTableResult (u, (findTable B u.name).getD u))).name = u.name := by
      rw [applyLocal_name]
      rfl
    rw [hnd, hcreatedany u.name (List.mem_map_of_mem _ (List.mem_filter.mp hu).1)]
    rfl
  rw [h3, List.map_append, List.map_map, List.map_map]
  unfold revApplied
  congr 1
  · apply List.map_congr_left
    intro u hu
    have hu' := List.mem_filter.mp hu
    obtain ⟨tb, htbB, hbeq⟩ := List.any_eq_true.mp hu'.2
    have hname : tb.name = u.name := beq_iff_eq.mp hbeq
    have hfindB : findTable B u.name = some tb := by
      have h := findTable_self ndB htbB
      rw [hname] at h
      exact h
    have hfindA : findTable A tb.name = some u := by
      rw [hname]
      exact findTable_self ndA hu'.1
    have hqmem : (u, tb) ∈ sharedPairs A B := sharedPairs_complete htbB hfindA
    show applyLocal (revPostStmts A B)
        (applyLocal (revPreStmts A B) (fwdTableResult (u, (findTable B u.name).getD u))) =
      revTableResult (u, (findTable B u.name).getD u)
    rw [hfindB]
    exact applyLocal_rev_master hqmem ndP (wfA u hu'.1) (wfB tb htbB)
  · have hskip : ∀ d ∈ (droppedTables A B).reverse, applyLocal (revPostStmts A B) d = d := by
      intro d hd
      apply applyLocal_skip_all
      intro st hst
      obtain ⟨_, p, hp, hstname⟩ := hprops (revPostStmts A B) (by simp) st hst
      rw [hstname]
      have hdmem := List.mem_filter.mp ((mem_sortByKey _ _ _).mp (List.mem_reverse.mp hd))
      have hdB : hasTable B d.name = false := by
        have h := hdmem.2
        rw [Bool.not_eq_true'] at h
        exact h
      intro heq
      have hp2B : p.2 ∈ B := (sharedPairs_mem hp).1
      have : hasTable B d.name = true :=
        List.any_eq_true.mpr ⟨p.2, hp2B, by simp [heq]⟩
      rw [hdB] at this
      cases this
    rw [List.map_congr_left hskip, List.map_id']

/-- The forward-migrated schema has no drift left against the desired
schema. -/
theorem fwdApplied_diff_nil (A B : Schema)
    (hA : Schema.wf A = true) (hB : Schema.wf B = true) :
    diff (fwdApplied A B) B = [] := by
  obtain ⟨ndA, wfA⟩ := Schema.wf_iff.mp hA
  obtain ⟨ndB, wfB⟩ := Schema.wf_iff.mp hB
  apply diff_eq_nil
  · apply List.filter_eq_nil_iff.mpr
    intro t ht
    rcases List.mem_append.mp ht with hL | hR
    · rcases List.mem_map.mp hL with ⟨u, hu, rfl⟩
      have hhas : hasTable B (fwdTableResult (u, (findTable B u.name).getD u)).name = true :=
        (List.mem_filter.mp hu).2
      simp [hhas]
    · have htB : t ∈ B := (List.mem_filter.mp ((mem_sortByKey _ _ _).mp hR)).1
      have hhas : hasTable B t.name = true := List.any_eq_true.mpr ⟨t, htB, by simp⟩
      simp [hhas]
  · apply List.filter_eq_nil_iff.mpr
    intro tb htb
    have hhas : hasTable (fwdApplied A B) tb.name = true := by
      cases h : hasTable A tb.name with
      | true =>
        obtain ⟨u, huA, hbeq⟩ := List.any_eq_true.mp h
        have huname : u.name = tb.name := beq_iff_eq.mp hbeq
        have humem : u ∈ A.filter (fun v => hasTable B v.name) :=
          List.mem_filter.mpr ⟨huA, List.any_eq_true.mpr ⟨tb, htb, by simp [huname]⟩⟩
        apply List.any_eq_true.mpr
        refine ⟨fwdTableResult (u, (findTable B u.name).getD u),
          List.mem_append.mpr (Or.inl (List.mem_map_of_mem _ humem)), ?_⟩
        have hn : (fwdTableResult (u, (findTable B u.name).getD u)).name = u.name := rfl
        rw [hn]
        simp [huname]
      | false =>
        apply List.any_eq_true.mpr
        refine ⟨tb, List.mem_append.mpr (Or.inr ((mem_sortByKey _ _ _).mpr
          (List.mem_filter.mpr ⟨htb, by simp [h]⟩))), by simp⟩
    simp [hhas]
  · intro p hp
    obtain ⟨a, b⟩ := p
    have hbB : b ∈ B := (sharedPairs_mem hp).1
    have hfind := (sharedPairs_mem hp).2
    have hamem : a ∈ fwdApplied A B := List.mem_of_find?_eq_some hfind
    have haname : a.name = b.name :=
      beq_iff_eq.mp (@List.find?_some Table (fun t => t.name == b.name) a (fwdApplied A B) hfind)
    rcases List.mem_append.mp hamem with hL | hR
    · rcases List.mem_map.mp hL with ⟨u, hu, hpeq⟩
      have hu' := List.mem_filter.mp hu
      obtain ⟨tb, htbB, hbeq2⟩ := List.any_eq_true.mp hu'.2
      have htbname : tb.name = u.name := beq_iff_eq.mp hbeq2
      have hfindB : findTable B u.name = some tb := by
        have h := findTable_self ndB htbB
        rw [htbname] at h
        exact h
      rw [hfindB, Option.getD_some] at hpeq
      have huname : u.name = b.name := by
        have h1 : a.name = u.name := by
          rw [← hpeq]
          rfl
        rw [← h1, haname]
      have htbb : tb = b := by
        have h1 : findTable B b.name = some tb := by
          rw [← huname]
          exact hfindB
        have h2 : findTable B b.name = some b := findTable_self ndB hbB
        rw [h1] at h2
        exact Option.some.inj h2
      rw [htbb] at hpeq
      rw [← hpeq]
      exact fwd_pair_nil (u, b) (wfA u hu'.1) (wfB b hbB)
    · have haB : a ∈ B := (List.mem_filter.mp ((mem_sortByKey _ _ _).mp hR)).1
      have hab : a = b := by
        have h1 : findTable B b.name = some a := by
          rw [← haname]
          exact findTable_self ndB haB
        have h2 : findTable B b.name = some b := findTable_self ndB hbB
        rw [h1] at h2
        exact Option.some.inj h2
      rw [hab]
      exact selfPair_ops_nil b (wfB b hbB)

/-- The reverse-migrated schema has no drift left against the original
schema. -/
theorem revApplied_diff_nil (A B : Schema)
    (hA : Schema.wf A = true) (hB : Schema.wf B = true) :
    diff (revApplied A B) A = [] := by
  obtain ⟨ndA, wfA⟩ := Schema.wf_iff.mp hA
  obtain ⟨ndB, wfB⟩ := Schema.wf_iff.mp hB
  apply diff_eq_nil
  · apply List.filter_eq_nil_iff.mpr
    intro t ht
    rcases List.mem_append.mp ht with hL | hR
    · rcases List.mem_map.mp hL with ⟨u, hu, rfl⟩
      have huA : u ∈ A := (List.mem_filter.mp hu).1
      have hn : (revTableResult (u, (findTable B u.name).getD u)).name = u.name := rfl
      have hhas : hasTable A (revTableResult (u, (findTable B u.name).getD u)).name = true := by
        rw [hn]
        exact List.any_eq_true.mpr ⟨u, huA, by simp⟩
      simp [hhas]
    · have htA : t ∈ A :=
        (List.mem_filter.mp ((mem_sortByKey _ _ _).mp (List.mem_reverse.mp hR))).1
      have hhas : hasTable A t.name = true := List.any_eq_true.mpr ⟨t, htA, by simp⟩
      simp [hhas]
  · apply List.filter_eq_nil_iff.mpr
    intro ta hta
    have hhas : hasTable (revApplied A B) ta.name = true := by
      cases h : hasTable B ta.name with
      | true =>
        have hmem : ta ∈ A.filter (fun v => hasTable B v.name) :=
          List.mem_filter.mpr ⟨hta, h⟩
        apply List.any_eq_true.mpr
        refine ⟨revTableResult (ta, (findTable B ta.name).getD ta),
          List.mem_append.mpr (Or.inl (List.mem_map_of_mem _ hmem)), ?_⟩
        have hn : (revTableResult (ta, (findTable B ta.name).getD ta)).name = ta.name := rfl
        rw [hn]
        simp
      | false =>
        apply List.any_eq_true.mpr
        refine ⟨ta, List.mem_append.mpr (Or.inr (List.mem_reverse.mpr
          ((mem_sortByKey _ _ _).mpr (List.mem_filter.mpr ⟨hta, by simp [h]⟩)))), by simp⟩
    simp [hhas]
  · intro p hp
    obtain ⟨a, b⟩ := p
    have hbA : b ∈ A := (sharedPairs_mem hp).1
    have hfind := (sharedPairs_mem hp).2
    have hamem : a ∈ revApplied A B := List.mem_of_find?_eq_some hfind
    have haname : a.name = b.name :=
      beq_iff_eq.mp (@List.find?_some Table (fun t => t.name == b.name) a (revApplied A B) hfind)
    rcases List.mem_append.mp hamem with hL | hR
    · rcases List.mem_map.mp hL with ⟨u, hu, hpeq⟩
      have hu' := List.mem_filter.mp hu
      have huname : u.name = b.name := by
        have h1 : a.name = u.name := by
          rw [← hpeq]
          rfl
        rw [← h1, haname]
      have hub : u = b := by
        have h1 : findTable A b.name = some u := by
          rw [← huname]
          exact findTable_self ndA hu'.1
        have h2 : findTable A b.name = some b := findTable_self ndA hbA
        rw [h1] at h2
        exact Option.some.inj h2
      rw [hub] at hpeq
      obtain ⟨tb, htbB, hbeq2⟩ := List.any_eq_true.mp (hub ▸ hu'.2)
      have htbname : tb.name = b.name := beq_iff_eq.mp hbeq2
      have hfindB : findTable B b.name = some tb := by
        have h := findTable_self ndB htbB
        rw [htbname] at h
        exact h
      rw [hfindB, Option.getD_some] at hpeq
      rw [← hpeq]
      exact rev_pair_nil (b, tb) (wfA b hbA)
    · have haA : a ∈ A :=
        (List.mem_filter.mp ((mem_sortByKey _ _ _).mp (List.mem_reverse.mp hR))).1
      have hab : a = b := by
        have h1 : findTable A b.name = some a := by
          rw [← haname]
          exact findTable_self ndA haA
        have h2 : findTable A b.name = some b := findTable_self ndA hbA
        rw [h1] at h2
        exact Option.some.inj h2
      rw [hab]
      exact selfPair_ops_nil b (wfA b hbA)

/-- No statement of a mapped generator phase addresses a non-shared name. -/
theorem filter_phase_nomatch (F : ChangeOp → Statement) (G : Table × Table → List ChangeOp)
    {A B : Schema} (props : ∀ p, ∀ op ∈ G p, (F op).tableName = p.2.name)
    {m : String} (hm : ∀ p ∈ sharedPairs A B, p.2.name ≠ m) :
    (((sharedPairs A B).flatMap G).map F).filter (fun st => st.tableName == m) = [] := by
  rw [List.map_flatMap]
  exact flatMap_filter_key_nomatch (fun p => p.2.name) Statement.tableName _
    (fun p => (G p).map F)
    (fun p st hst => by
      rcases List.mem_map.mp hst with ⟨op, hop, rfl⟩
      exact props p op hop)
    m hm

/-- C1: the claim states that when `os.ReadDir(migrationsDir)` fails with an
error other than not-exist, `applyExistingMigrations` returns a non-nil error.
The code does the opposite: the guard at generate.go line 112 returns `nil`
precisely on such errors, swallowing them.  This theorem evaluates the model
at the failing input: a `ReadDir` failure (for example, permission denied)
makes `applyExistingMigrations` return nil without attempting anything. -/
theorem c1_readdir_error_swallowed :
    applyExistingMigrations (.errOther ⟨"open migrations: permission denied"⟩)
        { newResult := none, upResult := .ok } =
      { err := none, attempted := false } := by
  decide

/-- C2: the claim states that whenever the container is successfully created,
the stop-and-remove teardown runs before `generateMigrations` returns.  The
deferred teardown is only registered after `ContainerStart` succeeds
(generate.go line 201 follows line 197), so in a run where creation succeeds
and start fails, the function returns an error with the container created and
no teardown executed.  This theorem evaluates the model at that failing
input. -/
theorem c2_teardown_skipped_on_start_failure :
    (generateMigrations startFailEnv).containerCreated = true ∧
    (generateMigrations startFailEnv).teardownRan = false ∧
    (generateMigrations startFailEnv).err ≠ none := by
  decide

/-- C3: the claim states that in write mode every successful run allocates a
version identifier and writes exactly two migration files.  The source's
`generateMigrations` contains no file-writing step at all (it stops after
dumping and logging the schema, lines 227-233), so a successful run returns
nil having written zero migration files, contradicting both the claim and the
repository's stated purpose of generating migrations. -/
theorem c3_no_migration_files_written :
    (∀ env : GMEnv, (generateMigrations env).migrationFilesWritten = []) ∧
    (generateMigrations okEnv).err = none ∧
    (generateMigrations okEnv).migrationFilesWritten = [] := by
  refine ⟨fun env => ?_, by decide, by decide⟩
  unfold generateMigrations
  repeat' split
  all_goals rfl

/-- C4: the process exit code of the `generate` subcommand is 0 exactly when
`generateMigrations` returns nil (and the deferred teardown did not call
`log.Fatal`, which terminates the process with exit code 1 before the function
can return); whenever `generateMigrations` returns a non-nil error, the `Run`
closure calls `os.Exit(1)`. -/
theorem c4_exit_code_zero_iff_success :
    ∀ env : GMEnv,
      ((generateMigrations env).err ≠ none → generateExitCode env ≠ 0) ∧
      ((generateMigrations env).fatalDuringTeardown = false →
        (generateMigrations env).err = none → generateExitCode env = 0) := by
  intro env
  unfold generateExitCode
  constructor
  · intro herr
    cases hf : (generateMigrations env).fatalDuringTeardown <;> simp only [hf]
    · cases he : (generateMigrations env).err with
      | none => exact absurd he herr
      | some e => simp
    · simp
  · intro hf he
    simp only [hf, he]
    rfl

/-- C4 witness: at the all-steps-succeed environment the error is nil and the
exit code is 0; at the start-failure environment the error is non-nil and the
exit code is non-zero. -/
theorem c4_exit_code_witness :
    generateExitCode okEnv = 0 ∧ generateExitCode startFailEnv ≠ 0 :=
  ⟨(c4_exit_code_zero_iff_success okEnv).2 (by decide) (by decide),
   (c4_exit_code_zero_iff_success startFailEnv).1 (by decide)⟩

/-- C9: when the migrations directory does not exist or contains no entries,
`applyExistingMigrations` returns nil without attempting to apply any
migration, and a run of `generateMigrations` in which everything else
succeeds returns nil (the current database state is treated as empty). -/
theorem c9_missing_or_empty_dir_skips_apply :
    ∀ (rd : ReadDirResult) (menv : MigrateEnv),
      rd = .errNotExist ∨ rd = .ok [] →
      applyExistingMigrations rd menv = { err := none, attempted := false } ∧
      (generateMigrations { okEnv with readDir := rd, migrateEnv := menv }).err = none := by
  rintro rd menv (rfl | rfl) <;> exact ⟨rfl, rfl⟩

/-- C9 witness: the not-exist case at a concrete migrate environment. -/
theorem c9_missing_or_empty_dir_skips_apply_witness :
    applyExistingMigrations .errNotExist { newResult := none, upResult := .ok } =
        { err := none, attempted := false } ∧
      (generateMigrations
          { okEnv with
              readDir := .errNotExist,
              migrateEnv := { newResult := none, upResult := .ok } }).err = none :=
  c9_missing_or_empty_dir_skips_apply .errNotExist { newResult := none, upResult := .ok }
    (Or.inl rfl)

/-- C5: the claim states that introspection normalizes `character varying`
with length n into the identical canonical value the parser produces for
`VARCHAR(n)`.  The source has no such normalization: `dumpDatabaseSchema`
emits the vendor-reported `data_type` verbatim, so an introspected
`character varying` column of length 255 yields the type text
`character varying(255)`, which differs from the canonical `VARCHAR(255)`
value modelled from the spec's parser contract. -/
theorem c5_vendor_type_not_normalized :
    typeText varcharRow = "character varying(255)" ∧
    typeText varcharRow ≠ parserCanonicalVarchar 255 := by
  constructor
  · rfl
  · decide

/-- C10: every catalog row produces exactly one output line, and the
parenthesized type argument is the character maximum length whenever present —
the rendered line is then completely independent of the precision and scale
fields — while otherwise precision (with scale when present) is rendered. -/
theorem c10_row_rendering :
    (∀ rows : List CatalogRow, (dumpSchemaLines rows).length = rows.length) ∧
    (∀ (r : CatalogRow) (l : String), r.charMaxLen = some l →
      (∀ p s, renderRow { r with numPrecision := p, numScale := s } = renderRow r) ∧
      (∃ rest, renderRow r =
        r.tableName ++ "." ++ r.columnName ++ " " ++ r.dataType ++ "(" ++ l ++ ")" ++ rest)) ∧
    (∀ (r : CatalogRow) (p : String), r.charMaxLen = none → r.numPrecision = some p →
      (∀ s, r.numScale = some s → ∃ rest, renderRow r =
        r.tableName ++ "." ++ r.columnName ++ " " ++ r.dataType ++ "(" ++ p ++ "," ++ s ++ ")" ++ rest) ∧
      (r.numScale = none → ∃ rest, renderRow r =
        r.tableName ++ "." ++ r.columnName ++ " " ++ r.dataType ++ "(" ++ p ++ ")" ++ rest)) := by
  refine ⟨fun rows => by simp [dumpSchemaLines], ?_, ?_⟩
  · intro r l hl
    constructor
    · intro p s
      simp [renderRow, typeText, hl]
    · refine ⟨?_, ?_⟩
      · exact (match r.columnDefault with
          | some d => " DEFAULT " ++ d
          | none => "") ++
          (if r.isNullable == "NO" then " NOT NULL" else "") ++
          (if r.isIdentity == some "YES" then
            " GENERATED " ++ ((r.identityGen).getD "") ++ " AS IDENTITY"
          else "")
      · simp [renderRow, typeText, hl, String.append_assoc]
  · intro r p hl hp
    constructor
    · intro s hs
      refine ⟨?_, ?_⟩
      · exact (match r.columnDefault with
          | some d => " DEFAULT " ++ d
          | none => "") ++
          (if r.isNullable == "NO" then " NOT NULL" else "") ++
          (if r.isIdentity == some "YES" then
            " GENERATED " ++ ((r.identityGen).getD "") ++ " AS IDENTITY"
          else "")
      · simp [renderRow, typeText, hl, hp, hs, String.append_assoc]
    · intro hs
      refine ⟨?_, ?_⟩
      · exact (match r.columnDefault with
          | some d => " DEFAULT " ++ d
          | none => "") ++
          (if r.isNullable == "NO" then " NOT NULL" else "") ++
          (if r.isIdentity == some "YES" then
            " GENERATED " ++ ((r.identityGen).getD "") ++ " AS IDENTITY"
          else "")
      · simp [renderRow, typeText, hl, hp, hs, String.append_assoc]

/-- C10 witness: at a concrete row with all three numeric fields present, the
character maximum length wins and the line count is one. -/
theorem c10_row_rendering_witness :
    (dumpSchemaLines [varcharRow]).length = [varcharRow].length ∧
    (∀ p s, renderRow { varcharRow with numPrecision := p, numScale := s } = renderRow varcharRow) := by
  refine ⟨(c10_row_rendering.1 [varcharRow]), ?_⟩
  exact (c10_row_rendering.2.1 varcharRow "255" (by decide)).1

/-- C6 counterexample: the round-trip claim in its literal form — applying the
forward script of `synthesize (diff A B)` to state `A` yields exactly state
`B` — is false.  Two well-formed schemas holding the same table whose only
index differs in nothing but its name are distinct states whose diff is empty
(index identity is structural: columns plus uniqueness), so the forward script
is empty and the database stays at `A ≠ B`. -/
theorem c6_roundtrip_counterexample :
    Schema.wf exIdxA = true ∧ Schema.wf exIdxB = true ∧
    diff exIdxA exIdxB = [] ∧
    applyStatements exIdxA (synthesize (diff exIdxA exIdxB)).1 ≠ exIdxB := by
  decide

/-- C6 amended: round-trip up to drift — for every pair of well-formed schemas
(unique table names, unique column names per table), applying the forward
script of `synthesize (diff A B)` to state `A` yields a state with no
remaining drift against `B` (its diff against `B` is empty), and applying the
reverse script afterwards yields a state with no drift against `A`. -/
theorem c6_roundtrip_up_to_diff (A B : Schema)
    (hA : Schema.wf A = true) (hB : Schema.wf B = true) :
    diff (applyStatements A (synthesize (diff A B)).1) B = [] ∧
    diff (applyStatements (applyStatements A (synthesize (diff A B)).1)
      (synthesize (diff A B)).2) A = [] := by
  rw [applyStatements_fwd A B hA hB, applyStatements_rev A B hA hB]
  exact ⟨fwdApplied_diff_nil A B hA hB, revApplied_diff_nil A B hA hB⟩

/-- C6 witness: both concrete schemas are well formed, and the amended
round-trip holds on them. -/
theorem c6_roundtrip_up_to_diff_witness :
    Schema.wf exCurrent = true ∧ Schema.wf exDesired = true ∧
    (diff (applyStatements exCurrent (synthesize (diff exCurrent exDesired)).1) exDesired = [] ∧
     diff (applyStatements (applyStatements exCurrent (synthesize (diff exCurrent exDesired)).1)
       (synthesize (diff exCurrent exDesired)).2) exCurrent = []) :=
  ⟨by decide, by decide, c6_roundtrip_up_to_diff exCurrent exDesired (by decide) (by decide)⟩

end Styx
